import Mathlib

/-
Verification of the popup orchestration logic of the Youtube_Video_Chat_Extension
repository (a browser-extension popup that submits a YouTube URL to a remote
backend and asks questions about the video).

The embedding covers the two popup variants found in the sources:
  * `src/popup.js`          (handlers `handleAsk`, `handleProcessVideo`,
                             `connectToGradio`, `formatResponse`, `streamText`)
  * `src/unnamed/part_000`  (handlers `handleAskQuestion`, `handleProcessVideo`,
                             `connectToGradio`, `formatResponse`)

Strings are modelled as `List Char` (with `String` wrappers), the DOM/UI state
touched by the handlers as explicit structures, and the remote backend as an
outcome parameter.  Remote invocations are recorded in a `calls` trace so that
"no remote call is made" is expressible.
-/

/-! ### JavaScript string primitives -/

/-- The character class removed by JavaScript `String.prototype.trim`
(ECMAScript WhiteSpace and LineTerminator code points). -/
def isWsChar (c : Char) : Bool :=
  c = ' ' || c = '\t' || c = '\n' || c = '\r' || c = '\x0b' || c = '\x0c' ||
  c = '\u00A0' || c = '\u1680' || ('\u2000' ≤ c && c ≤ '\u200A') ||
  c = '\u2028' || c = '\u2029' || c = '\u202F' || c = '\u205F' || c = '\u3000' ||
  c = '\uFEFF'

/-- Remove trailing JS whitespace. -/
def dropTrail (l : List Char) : List Char :=
  (l.reverse.dropWhile isWsChar).reverse

/-- JavaScript `text.trim()` on a character list. -/
def jsTrim (l : List Char) : List Char :=
  dropTrail (l.dropWhile isWsChar)

/-- JavaScript `s.trim()` on a `String`. -/
def jsTrimStr (s : String) : String :=
  String.mk (jsTrim s.data)

/-- `leadsWith p l` is true when `p` is an initial segment of `l`
(JavaScript `l.startsWith(p)`). -/
def leadsWith : List Char → List Char → Bool
  | [], _ => true
  | _ :: _, [] => false
  | p :: ps, c :: cs => p = c && leadsWith ps cs

/-- `occursIn p l` is true when `p` occurs contiguously somewhere in `l`
(JavaScript `l.includes(p)`). -/
def occursIn (p : List Char) : List Char → Bool
  | [] => leadsWith p []
  | c :: cs => leadsWith p (c :: cs) || occursIn p cs

/-- JavaScript `text.split('\n')`. -/
def splitNl : List Char → List (List Char)
  | [] => [[]]
  | c :: cs =>
    if c = '\n' then [] :: splitNl cs
    else
      match splitNl cs with
      | [] => [[c]]
      | g :: gs => (c :: g) :: gs

/-! ### The bold-marker replacement `text.replace(/\*\*(.*?)\*\*/g, '<strong>$1</strong>')`

JavaScript `.` (without the `s` flag) matches every character except the
line terminators LF, CR, U+2028 and U+2029; `dotM` models that class.
`findClose` scans for the nearest closing `**` (the non-greedy group),
`boldGo` performs the global left-to-right replacement.  `boldGo` is
structurally recursive on a fuel argument; `l.length` fuel is always enough
(`boldGo_congr` below). -/

def dotM (c : Char) : Bool :=
  !(c = '\n' || c = '\r' || c = '\u2028' || c = '\u2029')

/-- Scan for the closing `**` of a non-greedy group: returns the group
characters and the remainder after the closing marker. -/
def findClose : List Char → Option (List Char × List Char)
  | [] => none
  | c :: cs =>
    if c = '*' ∧ cs.head? = some '*' then some ([], cs.tail)
    else if dotM c then
      (findClose cs).map (fun gr => (c :: gr.1, gr.2))
    else none

def strongO : List Char := ['<', 's', 't', 'r', 'o', 'n', 'g', '>']
def strongC : List Char := ['<', '/', 's', 't', 'r', 'o', 'n', 'g', '>']
def ulO : List Char := ['<', 'u', 'l', '>']
def ulC : List Char := ['<', '/', 'u', 'l', '>']
def liO : List Char := ['<', 'l', 'i', '>']
def liC : List Char := ['<', '/', 'l', 'i', '>']
def brL : List Char := ['<', 'b', 'r', '>']
def starSpace : List Char := ['*', ' ']

/-- One fuel-indexed pass of the global regex replacement: at each position,
if a `**` opens and a closing `**` is reachable through dot-matching
characters, the (lazy) group is wrapped in strong tags; otherwise the engine
advances one character. -/
def boldGo (fuel : Nat) (l : List Char) : List Char :=
  match fuel with
  | 0 => l
  | fuel + 1 =>
    match l with
    | [] => []
    | c :: cs =>
      if c = '*' ∧ cs.head? = some '*' then
        match findClose cs.tail with
        | some (g, r) => strongO ++ g ++ strongC ++ boldGo fuel r
        | none => c :: boldGo fuel cs
      else c :: boldGo fuel cs

/-- `text.replace(/\*\*(.*?)\*\*/g, '<strong>$1</strong>')`. -/
def boldReplace (l : List Char) : List Char := boldGo l.length l

/-! ### formatResponse (identical in both popup variants) -/

/-- `line.trim().startsWith('* ')`. -/
def isBulletLine (l : List Char) : Bool :=
  leadsWith starSpace (jsTrim l)

/-- The `<li>` item built from a bullet line:
`'<li>' + line.trim().substring(2).trim() + '</li>'`. -/
def mkListItem (ln : List Char) : List Char :=
  liO ++ jsTrim ((jsTrim ln).drop 2) ++ liC

/-- The bullet-list restructuring step of `formatResponse`, as a standalone
rule: when the text contains `'* '`, bullet lines become `<li>` items and the
remaining lines are joined with `<br>` and placed before the single list. -/
def bulletRestructure (l : List Char) : List Char :=
  if occursIn starSpace l then
    let lines := splitNl l
    let listItems := ((lines.filter fun ln => isBulletLine ln).map mkListItem).flatten
    let other := List.intercalate brL (lines.filter fun ln => !(isBulletLine ln))
    other ++ ulO ++ listItems ++ ulC
  else l

/-- `formatResponse` from the sources, as one function (bold replacement,
then the conditional bullet restructuring, then a final trim). -/
def formatResponseL (l : List Char) : List Char :=
  let ft := boldGo l.length l
  let ft2 :=
    if occursIn starSpace ft then
      let lines := splitNl ft
      let listItems := ((lines.filter fun ln => isBulletLine ln).map mkListItem).flatten
      let other := List.intercalate brL (lines.filter fun ln => !(isBulletLine ln))
      other ++ ulO ++ listItems ++ ulC
    else ft
  jsTrim ft2

/-- `formatResponse` on `String`. -/
def formatResponse (s : String) : String :=
  String.mk (formatResponseL s.data)

/-! ### streamText (src/popup.js)

`streamText` strips the markup tags from the formatted text (via a detached
DOM node's `textContent`), then assigns `element.innerHTML` once per revealed
character, awaiting a timer between steps, and finally assigns the fully
formatted markup.  `streamWrites` is the ordered sequence of values assigned
to the output element's `innerHTML` by one run. -/

/-- Tag stripping as performed by reading `textContent` of markup whose tags
were produced by `formatResponse` (everything from `<` to the next `>` is
markup). -/
def stripTagsGo : Bool → List Char → List Char
  | _, [] => []
  | false, c :: r => if c = '<' then stripTagsGo true r else c :: stripTagsGo false r
  | true, c :: r => if c = '>' then stripTagsGo false r else stripTagsGo true r

def stripTags (l : List Char) : List Char := stripTagsGo false l

/-- The successive `element.innerHTML` assignments of one `streamText` run on
already formatted text: every plain-text prefix in order, then the formatted
markup. -/
def streamWrites (formatted : List Char) : List (List Char) :=
  ((List.range (stripTags formatted).length).map
    (fun i => (stripTags formatted).take (i + 1))) ++ [formatted]

/-- `<span class="empty">Loading answer...</span>`, the first `innerHTML`
assignment performed by `handleAsk` before the remote call. -/
def loadingAnswerHTML : List Char :=
  "<span class=\"empty\">Loading answer...</span>".data

/-- All `innerHTML` assignments of one `handleAsk` invocation whose remote
call succeeds with answer `ans`: the loading placeholder, then the streaming
writes of the formatted answer. -/
def askRunWrites (ans : List Char) : List (List Char) :=
  loadingAnswerHTML :: streamWrites (formatResponseL ans)

/-- The same write sequence, with every write tagged by which run performed
it (`false` = first run, `true` = second run). -/
def taggedAskWrites (tag : Bool) (ans : List Char) : List (Bool × List Char) :=
  (askRunWrites ans).map (fun w => (tag, w))

/-- An interleaving of two write sequences: both subsequences keep their
internal order (the single-threaded event loop executes each run's writes in
order, but the two runs' timer callbacks may interleave arbitrarily). -/
inductive Interleave {α : Type} : List α → List α → List α → Prop
  | nil : Interleave [] [] []
  | consL {x : α} {xs ys zs : List α} :
      Interleave xs ys zs → Interleave (x :: xs) ys (x :: zs)
  | consR {y : α} {xs ys zs : List α} :
      Interleave xs ys zs → Interleave xs (y :: ys) (y :: zs)

/-- `true` when, somewhere in the tag sequence, a `true`-tagged event is
later followed by a `false`-tagged one: the first run is still writing after
the second run has started writing (overlapping invocations). -/
def hasTrueThenFalse : List Bool → Bool
  | [] => false
  | b :: rest => if b then rest.any (fun x => !x) else hasTrueThenFalse rest

/-! ### Session state and handlers

Both popup variants keep the module-level state `gradioClient` /
`videoProcessed` plus the DOM state their handlers write.  The remote
backend's behaviour is an explicit outcome parameter, and every
`client.predict(...)` / `Client.connect(...)` invocation is recorded in a
`calls` trace.  `alert(...)` messages are recorded in `alerts`. -/

/-- A remote invocation made through the Gradio client. -/
inductive Call : Type
  | connect : Call
  | processVideo (url : String) : Call
  | answerQuestion (question : String) : Call
deriving DecidableEq

/-- Result of awaiting `client.predict('/answer_question', [q])`:
the answer payload, or a thrown error with its message. -/
inductive PredictResult : Type
  | ok (answer : String) : PredictResult
  | err (msg : String) : PredictResult
deriving DecidableEq

/-- Result of awaiting `client.predict('/process_video_url', [url])`:
either a thrown error, or `result.data[0]` with its optional `error` and
`message` string fields. -/
inductive ProcessOutcome : Type
  | thrown (msg : String) : ProcessOutcome
  | payload (error : Option String) (message : Option String) : ProcessOutcome
deriving DecidableEq

/-- `output?.error` is truthy: the error field is present and non-empty. -/
def outcomeFails : ProcessOutcome → Bool
  | .thrown _ => true
  | .payload e _ => !(e.getD "" = "")

/-! #### src/popup.js -/

/-- The module-level and DOM state read or written by the `src/popup.js`
handlers. -/
structure PopupState : Type where
  gradioClient : Bool
  videoProcessed : Bool
  outputHTML : String
  outputDisplay : String
  outputVisible : Bool
  statusText : String
  statusType : String
  statusContainerDisplay : String
  processAreaDisplay : String
  videoInteractDisplay : String
  processBtnDisabled : Bool
  videoUrlDisabled : Bool
  videoUrlValue : String
  questionValue : String
  alerts : List String
  calls : List Call
deriving DecidableEq

/-- `connectToGradio` (src/popup.js, also verbatim in part_000): returns at
once when a client exists; otherwise attempts `Client.connect`, recording
success in `gradioClient` or disabling the process button on failure.
`ok` is whether the connection attempt succeeds. -/
def connectToGradio (st : PopupState) (ok : Bool) : PopupState :=
  if st.gradioClient then st
  else
    let st1 := { st with statusText := "Connecting to AI backend...", statusType := "loading",
                         calls := st.calls ++ [Call.connect] }
    if ok then
      { st1 with gradioClient := true,
                 statusText := "Connected! Ready to process video.", statusType := "success" }
    else
      { st1 with statusText := "Failed to connect to backend.", statusType := "error",
                 processBtnDisabled := true }

/-- `handleProcessVideo` (src/popup.js).  `connOk` parameterises the
connection attempt made when no client exists yet; `outcome` the awaited
`predict` call. -/
def handleProcessVideo (st : PopupState) (connOk : Bool) (outcome : ProcessOutcome) :
    PopupState :=
  if st.videoUrlValue = "" then
    { st with alerts := st.alerts ++ ["No video URL found. Make sure you are on a YouTube video page."] }
  else
    let st1 := if st.gradioClient then st else connectToGradio st connOk
    if !st1.gradioClient then st1
    else
      let st2 := { st1 with processAreaDisplay := "none", statusContainerDisplay := "block",
                            statusText := "Processing video... This may take a moment.",
                            statusType := "loading",
                            outputDisplay := "none", outputHTML := "", outputVisible := false,
                            calls := st1.calls ++ [Call.processVideo st.videoUrlValue] }
      match outcome with
      | .payload e _ =>
        if e.getD "" = "" then
          { st2 with statusContainerDisplay := "none", videoInteractDisplay := "flex",
                     videoProcessed := true, outputDisplay := "block", questionValue := "" }
        else
          { st2 with statusContainerDisplay := "block", videoInteractDisplay := "none",
                     statusText := "Error: " ++ e.getD "", statusType := "error",
                     processAreaDisplay := "block", processBtnDisabled := false,
                     videoUrlDisabled := false, videoProcessed := false }
      | .thrown m =>
          { st2 with statusContainerDisplay := "block", videoInteractDisplay := "none",
                     statusText := "Error: " ++ m, statusType := "error",
                     processAreaDisplay := "block", processBtnDisabled := false,
                     videoUrlDisabled := false, videoProcessed := false }

/-- `handleAsk` (src/popup.js).  The trimmed question gates an early return;
there is no `videoProcessed` check.  On success the final state of the
streaming reveal is the formatted answer (the intermediate writes are
modelled by `streamWrites`); on a thrown error the error markup is shown.
The `predict` call is only recorded when a client exists (with a null
client the member access itself throws). -/
def handleAsk (st : PopupState) (outcome : PredictResult) : PopupState :=
  if jsTrimStr st.questionValue = "" then st
  else
    let st1 := { st with outputDisplay := "block", outputVisible := true,
                         outputHTML := "<span class=\"empty\">Loading answer...</span>" }
    let st2 :=
      if st1.gradioClient then
        { st1 with calls := st1.calls ++ [Call.answerQuestion (jsTrimStr st.questionValue)] }
      else st1
    match outcome with
    | .ok ans => { st2 with outputHTML := formatResponse ans }
    | .err m =>
        { st2 with outputHTML := "<span class=\"empty\">An error occurred: " ++ m ++ "</span>" }

/-! #### src/unnamed/part_000 -/

/-- The module-level and DOM state read or written by the part_000 handlers. -/
structure PopupStateV0 : Type where
  gradioClient : Bool
  videoProcessed : Bool
  answerHTML : String
  answerEmptyClass : Bool
  askDisabled : Bool
  askLoading : Bool
  statusText : String
  statusType : String
  statusContainerDisplay : String
  processAreaDisplay : String
  chatAreaDisplay : String
  processBtnDisabled : Bool
  videoUrlDisabled : Bool
  videoUrlValue : String
  questionValue : String
  alerts : List String
  calls : List Call
deriving DecidableEq

/-- `connectToGradio` (src/unnamed/part_000; textually identical to the
popup.js one, acting on the part_000 state). -/
def connectToGradioV0 (st : PopupStateV0) (ok : Bool) : PopupStateV0 :=
  if st.gradioClient then st
  else
    let st1 := { st with statusText := "Connecting to AI backend...", statusType := "loading",
                         calls := st.calls ++ [Call.connect] }
    if ok then
      { st1 with gradioClient := true,
                 statusText := "Connected! Ready to process video.", statusType := "success" }
    else
      { st1 with statusText := "Failed to connect to backend.", statusType := "error",
                 processBtnDisabled := true }

/-- `handleProcessVideo` (src/unnamed/part_000). -/
def handleProcessVideoV0 (st : PopupStateV0) (connOk : Bool) (outcome : ProcessOutcome) :
    PopupStateV0 :=
  if st.videoUrlValue = "" then
    { st with alerts := st.alerts ++ ["No video URL found. Make sure you are on a YouTube video page."] }
  else
    let st1 := if st.gradioClient then st else connectToGradioV0 st connOk
    if !st1.gradioClient then st1
    else
      let st2 := { st1 with processAreaDisplay := "none", statusContainerDisplay := "block",
                            statusText := "Processing video... This may take a moment.",
                            statusType := "loading",
                            calls := st1.calls ++ [Call.processVideo st.videoUrlValue] }
      match outcome with
      | .payload e _ =>
        if e.getD "" = "" then
          { st2 with statusContainerDisplay := "none", chatAreaDisplay := "block",
                     videoProcessed := true,
                     answerHTML := "You can now ask questions about the video.",
                     answerEmptyClass := false }
        else
          { st2 with statusContainerDisplay := "block", chatAreaDisplay := "none",
                     statusText := "Error: " ++ e.getD "", statusType := "error",
                     processAreaDisplay := "block", processBtnDisabled := false,
                     videoUrlDisabled := false, videoProcessed := false }
      | .thrown m =>
          { st2 with statusContainerDisplay := "block", chatAreaDisplay := "none",
                     statusText := "Error: " ++ m, statusType := "error",
                     processAreaDisplay := "block", processBtnDisabled := false,
                     videoUrlDisabled := false, videoProcessed := false }

/-- `handleAskQuestion` (src/unnamed/part_000): empty questions and the
not-yet-processed state are rejected locally with a message; otherwise the
busy flag is set, the remote call awaited, the formatted answer or the error
text rendered, and the busy flag cleared in `finally`. -/
def handleAskQuestion (st : PopupStateV0) (outcome : PredictResult) : PopupStateV0 :=
  if st.questionValue = "" then
    { st with answerHTML := "Please enter a question." }
  else if !st.videoProcessed then
    { st with answerHTML := "You must process a video before asking questions." }
  else
    let st1 := { st with askDisabled := true, askLoading := true, answerHTML := "Thinking..." }
    let st2 :=
      if st1.gradioClient then
        { st1 with calls := st1.calls ++ [Call.answerQuestion st.questionValue] }
      else st1
    let st3 :=
      match outcome with
      | .ok ans =>
          { st2 with answerHTML := formatResponse ans, answerEmptyClass := false }
      | .err m => { st2 with answerHTML := "An error occurred: " ++ m }
    { st3 with askDisabled := false, askLoading := false }

/-! ### Auxiliary definitions used by the verification -/

/-- Whether a text contains a character that JS `trim` would keep. -/
def hasNonWs (l : List Char) : Bool :=
  l.any fun c => !(isWsChar c)

/-- A baseline src/popup.js state: connected client, no processed video,
a YouTube URL in the input. -/
def basePopup : PopupState where
  gradioClient := true
  videoProcessed := false
  outputHTML := ""
  outputDisplay := "none"
  outputVisible := false
  statusText := "Connected! Ready to process video."
  statusType := "success"
  statusContainerDisplay := "block"
  processAreaDisplay := "block"
  videoInteractDisplay := "none"
  processBtnDisabled := false
  videoUrlDisabled := false
  videoUrlValue := "https://www.youtube.com/watch?v=dQw4w9WgXcQ"
  questionValue := ""
  alerts := []
  calls := []

/-- A baseline part_000 state in the same situation. -/
def basePopupV0 : PopupStateV0 where
  gradioClient := true
  videoProcessed := false
  answerHTML := ""
  answerEmptyClass := true
  askDisabled := false
  askLoading := false
  statusText := "Connected! Ready to process video."
  statusType := "success"
  statusContainerDisplay := "block"
  processAreaDisplay := "block"
  chatAreaDisplay := "none"
  processBtnDisabled := false
  videoUrlDisabled := false
  videoUrlValue := "https://www.youtube.com/watch?v=dQw4w9WgXcQ"
  questionValue := ""
  alerts := []
  calls := []

/-- A text combining a bold pair with bullet-prefixed lines, used to show
that the order of the two formatting rules is observable. -/
def demoMixed : List Char := "**a** z\n* b**\n* c**".data

/-- First (superseded) demo answer for the streaming overlap analysis. -/
def demoAnsFirst : List Char := "one".data

/-- Second (newest) demo answer for the streaming overlap analysis. -/
def demoAnsSecond : List Char := "two".data

/-- A schedule of the two overlapping `handleAsk` runs in which the first
run performs one write, is then preempted by the complete second run, and
finally performs its remaining writes (its timer callbacks were still
queued): the stale formatted answer is the last write. -/
def demoMergeStale : List (Bool × List Char) :=
  (false, loadingAnswerHTML) ::
    (taggedAskWrites true demoAnsSecond ++ (taggedAskWrites false demoAnsFirst).drop 1)

/-! ## Lemma layer: `leadsWith` and `occursIn` -/

theorem leadsWith_nil (l : List Char) : leadsWith [] l = true := by
  cases l <;> rfl

theorem leadsWith_iff_append (p l : List Char) :
    leadsWith p l = true ↔ ∃ t, l = p ++ t := by
  induction p generalizing l with
  | nil => simp [leadsWith_nil]
  | cons a p ih =>
    cases l with
    | nil => simp [leadsWith]
    | cons c cs =>
      simp only [leadsWith, Bool.and_eq_true, decide_eq_true_eq, ih, List.cons_append,
        List.cons.injEq]
      constructor
      · rintro ⟨rfl, t, rfl⟩
        exact ⟨t, rfl, rfl⟩
      · rintro ⟨t, rfl, rfl⟩
        exact ⟨rfl, t, rfl⟩

theorem leadsWith_self_append (p t : List Char) : leadsWith p (p ++ t) = true :=
  (leadsWith_iff_append p (p ++ t)).mpr ⟨t, rfl⟩

theorem leadsWith_refl (p : List Char) : leadsWith p p = true := by
  have h := leadsWith_self_append p []
  simpa using h

theorem occursIn_of_leadsWith {p l : List Char} (h : leadsWith p l = true) :
    occursIn p l = true := by
  cases l with
  | nil => simpa [occursIn] using h
  | cons c cs => simp [occursIn, h]

theorem occursIn_cons {p cs : List Char} (c : Char) (h : occursIn p cs = true) :
    occursIn p (c :: cs) = true := by
  simp [occursIn, h]

theorem occursIn_append_left {p a : List Char} (b : List Char)
    (h : occursIn p a = true) : occursIn p (a ++ b) = true := by
  induction a with
  | nil =>
    simp only [occursIn] at h
    exact occursIn_of_leadsWith ((leadsWith_iff_append _ _).mpr
      (by rcases (leadsWith_iff_append p []).mp h with ⟨t, ht⟩
          rcases List.append_eq_nil.mp ht.symm with ⟨rfl, rfl⟩
          exact ⟨b, rfl⟩))
  | cons c cs ih =>
    simp only [occursIn, Bool.or_eq_true] at h
    rcases h with h | h
    · rcases (leadsWith_iff_append _ _).mp h with ⟨t, ht⟩
      refine occursIn_of_leadsWith ((leadsWith_iff_append _ _).mpr ⟨t ++ b, ?_⟩)
      simp [List.cons_append, ← List.append_assoc, ← ht]
    · exact occursIn_cons c (ih h)

theorem occursIn_append_right {p b : List Char} (a : List Char)
    (h : occursIn p b = true) : occursIn p (a ++ b) = true := by
  induction a with
  | nil => simpa using h
  | cons c cs ih => exact occursIn_cons c ih

theorem occursIn_of_parts {p m : List Char} (a b : List Char)
    (h : occursIn p m = true) : occursIn p (a ++ m ++ b) = true := by
  rw [List.append_assoc]
  exact occursIn_append_right a (occursIn_append_left b h)

theorem leadsWith_append_decomp {p x y : List Char}
    (h : leadsWith p (x ++ y) = true) :
    leadsWith p x = true ∨ ∃ t, p = x ++ t ∧ leadsWith t y = true := by
  induction x generalizing p with
  | nil => exact Or.inr ⟨p, rfl, by simpa using h⟩
  | cons c cs ih =>
    cases p with
    | nil => exact Or.inl (leadsWith_nil _)
    | cons d p' =>
      simp only [List.cons_append, leadsWith, Bool.and_eq_true, decide_eq_true_eq] at h
      rcases h with ⟨rfl, h2⟩
      rcases ih h2 with h3 | ⟨t, rfl, h4⟩
      · exact Or.inl (by simp [leadsWith, h3])
      · exact Or.inr ⟨t, rfl, h4⟩

theorem occursIn_append_decomp {p x y : List Char}
    (h : occursIn p (x ++ y) = true) :
    occursIn p x = true ∨ occursIn p y = true ∨
      ∃ s t u, p = s ++ t ∧ s ≠ [] ∧ t ≠ [] ∧ x = u ++ s ∧ leadsWith t y = true := by
  induction x with
  | nil => exact Or.inr (Or.inl (by simpa using h))
  | cons c cs ih =>
    simp only [List.cons_append, occursIn, Bool.or_eq_true] at h
    rcases h with h | h
    · rcases leadsWith_append_decomp (show leadsWith p ((c :: cs) ++ y) = true from h) with h1 | ⟨t, rfl, h2⟩
      · exact Or.inl (occursIn_of_leadsWith h1)
      · by_cases ht : t = []
        · subst ht
          exact Or.inl (occursIn_of_leadsWith (by simpa using leadsWith_refl (c :: cs)))
        · exact Or.inr (Or.inr ⟨c :: cs, t, [], rfl, by simp, ht, rfl, h2⟩)
    · rcases ih h with h1 | h1 | ⟨s, t, u, rfl, hs, ht, rfl, h2⟩
      · exact Or.inl (occursIn_cons c h1)
      · exact Or.inr (Or.inl h1)
      · exact Or.inr (Or.inr ⟨s, t, c :: u, rfl, hs, ht, rfl, h2⟩)

/-! ## Lemma layer: `findClose` and `boldGo` -/

theorem findClose_close (cs : List Char) : findClose ('*' :: '*' :: cs) = some ([], cs) := by
  simp [findClose]

theorem findClose_advance {c : Char} {cs : List Char}
    (h : ¬(c = '*' ∧ cs.head? = some '*')) (hd : dotM c = true) :
    findClose (c :: cs) = (findClose cs).map (fun gr => (c :: gr.1, gr.2)) := by
  simp [findClose, h, hd]

theorem findClose_stop {c : Char} {cs : List Char} (hd : dotM c = false) :
    findClose (c :: cs) = none := by
  have hc : c ≠ '*' := by
    intro h
    subst h
    simp [dotM] at hd
  simp [findClose, hd, hc]

theorem findClose_structure :
    ∀ {l g r : List Char}, findClose l = some (g, r) →
      l = g ++ '*' :: '*' :: r ∧ ∀ c ∈ g, dotM c = true := by
  intro l
  induction l with
  | nil => intro g r h; simp [findClose] at h
  | cons c cs ih =>
    intro g r h
    by_cases hm : c = '*' ∧ cs.head? = some '*'
    · rcases hm with ⟨rfl, hh⟩
      cases cs with
      | nil => simp at hh
      | cons d cs2 =>
        simp only [List.head?_cons, Option.some.injEq] at hh
        subst hh
        rw [findClose_close] at h
        rcases Prod.mk.injEq .. ▸ Option.some.injEq .. ▸ h with h'
        obtain ⟨rfl, rfl⟩ := Prod.mk.injEq .. |>.mp (Option.some.injEq .. |>.mp h)
        exact ⟨rfl, by intro c hc; simp at hc⟩
    · by_cases hd : dotM c = true
      · rw [findClose_advance hm hd] at h
        rcases Option.map_eq_some'.mp h with ⟨⟨g', r'⟩, hfc, heq⟩
        obtain ⟨hg, hr⟩ := Prod.mk.injEq .. |>.mp heq
        subst hr
        rcases ih hfc with ⟨hshape, hdot⟩
        subst hg
        constructor
        · simp [hshape]
        · intro x hx
          rcases List.mem_cons.mp hx with rfl | hx
          · exact hd
          · exact hdot x hx
      · rw [findClose_stop (Bool.not_eq_true _ ▸ hd)] at h
        simp at h

theorem findClose_append_some {x g r : List Char} (y : List Char)
    (h : findClose x = some (g, r)) : findClose (x ++ y) = some (g, r ++ y) := by
  induction x generalizing g with
  | nil => simp [findClose] at h
  | cons c cs ih =>
    by_cases hm : c = '*' ∧ cs.head? = some '*'
    · rcases hm with ⟨rfl, hh⟩
      cases cs with
      | nil => simp at hh
      | cons d cs2 =>
        simp only [List.head?_cons, Option.some.injEq] at hh
        subst hh
        rw [findClose_close] at h
        obtain ⟨rfl, rfl⟩ := Prod.mk.injEq .. |>.mp (Option.some.injEq .. |>.mp h)
        simpa using findClose_close (cs2 ++ y)
    · by_cases hd : dotM c = true
      · rw [findClose_advance hm hd] at h
        rcases Option.map_eq_some'.mp h with ⟨⟨g', r'⟩, hfc, heq⟩
        obtain ⟨hg, hr⟩ := Prod.mk.injEq .. |>.mp heq
        subst hr; subst hg
        have hcs : cs ≠ [] := by
          intro hnil
          rw [hnil] at hfc
          simp [findClose] at hfc
        have hm' : ¬(c = '*' ∧ (cs ++ y).head? = some '*') := by
          cases cs with
          | nil => exact absurd rfl hcs
          | cons a as =>
            intro hcon
            exact hm ⟨hcon.1, by simpa using hcon.2⟩
        rw [List.cons_append, findClose_advance hm' hd, ih hfc]
        rfl
      · rw [findClose_stop (Bool.not_eq_true _ ▸ hd)] at h
        simp at h

theorem findClose_append_nl {x : List Char} (b : List Char)
    (h : findClose x = none) : findClose (x ++ '\n' :: b) = none := by
  induction x with
  | nil =>
    have : dotM '\n' = false := by decide
    simpa using (findClose_stop this : findClose ('\n' :: b) = none)
  | cons c cs ih =>
    by_cases hm : c = '*' ∧ cs.head? = some '*'
    · rcases hm with ⟨rfl, hh⟩
      cases cs with
      | nil => simp at hh
      | cons d cs2 =>
        simp only [List.head?_cons, Option.some.injEq] at hh
        subst hh
        rw [findClose_close] at h
        simp at h
    · by_cases hd : dotM c = true
      · rw [findClose_advance hm hd] at h
        have hfc : findClose cs = none := by
          cases hx : findClose cs with
          | none => rfl
          | some v => rw [hx] at h; simp at h
        have hm' : ¬(c = '*' ∧ (cs ++ '\n' :: b).head? = some '*') := by
          cases cs with
          | nil => intro hcon; simp at hcon
          | cons a as =>
            intro hcon
            exact hm ⟨hcon.1, by simpa using hcon.2⟩
        rw [List.cons_append, findClose_advance hm' hd, ih hfc]
        rfl
      · exact findClose_stop (Bool.not_eq_true _ ▸ hd)

theorem boldGo_nil (f : Nat) : boldGo f [] = [] := by
  cases f <;> rfl

theorem boldGo_cons_nomatch {c : Char} {cs : List Char} (f : Nat)
    (h : ¬(c = '*' ∧ cs.head? = some '*')) :
    boldGo (f + 1) (c :: cs) = c :: boldGo f cs := by
  simp [boldGo, h]

theorem boldGo_close {cs g r : List Char} (f : Nat)
    (h : findClose cs = some (g, r)) :
    boldGo (f + 1) ('*' :: '*' :: cs) = strongO ++ g ++ strongC ++ boldGo f r := by
  simp [boldGo, h]

theorem boldGo_noclose {cs : List Char} (f : Nat) (h : findClose cs = none) :
    boldGo (f + 1) ('*' :: '*' :: cs) = '*' :: boldGo f ('*' :: cs) := by
  simp [boldGo, h]

theorem boldGo_agree :
    ∀ f1 f2 (l : List Char), l.length ≤ f1 → l.length ≤ f2 → boldGo f1 l = boldGo f2 l := by
  intro f1
  induction f1 with
  | zero =>
    intro f2 l h1 _
    rcases List.eq_nil_of_length_eq_zero (Nat.le_zero.mp h1) with rfl
    simp [boldGo_nil]
  | succ f ih =>
    intro f2 l h1 h2
    cases l with
    | nil => simp [boldGo_nil]
    | cons c cs =>
      cases f2 with
      | zero => simp at h2
      | succ f2' =>
        by_cases hm : c = '*' ∧ cs.head? = some '*'
        · rcases hm with ⟨rfl, hh⟩
          cases cs with
          | nil => simp at hh
          | cons d cs2 =>
            simp only [List.head?_cons, Option.some.injEq] at hh
            subst hh
            simp only [List.length_cons] at h1 h2
            cases hfc : findClose cs2 with
            | none =>
              rw [boldGo_noclose f hfc, boldGo_noclose f2' hfc,
                ih f2' ('*' :: cs2) (by simpa using Nat.lt_of_succ_le h1)
                  (by simpa using Nat.lt_of_succ_le h2)]
            | some gr =>
              rcases gr with ⟨g, r⟩
              rcases findClose_structure hfc with ⟨hshape, _⟩
              have hr : r.length + g.length + 2 = cs2.length := by
                rw [hshape]; simp; omega
              rw [boldGo_close f hfc, boldGo_close f2' hfc,
                ih f2' r (by omega) (by omega)]
        · simp only [List.length_cons] at h1 h2
          rw [boldGo_cons_nomatch f hm, boldGo_cons_nomatch f2' hm,
            ih f2' cs (by omega) (by omega)]

theorem boldGo_eq_boldReplace {l : List Char} (f : Nat) (h : l.length ≤ f) :
    boldGo f l = boldReplace l :=
  boldGo_agree f l.length l h le_rfl

theorem boldRep_nil : boldReplace [] = [] := rfl

theorem boldRep_cons_nomatch {c : Char} {cs : List Char}
    (h : ¬(c = '*' ∧ cs.head? = some '*')) :
    boldReplace (c :: cs) = c :: boldReplace cs := by
  show boldGo (cs.length + 1) (c :: cs) = _
  rw [boldGo_cons_nomatch cs.length h]
  rfl

theorem boldRep_noclose {cs : List Char} (h : findClose cs = none) :
    boldReplace ('*' :: '*' :: cs) = '*' :: boldReplace ('*' :: cs) := by
  show boldGo (cs.length + 1 + 1) ('*' :: '*' :: cs) = _
  rw [boldGo_noclose (cs.length + 1) h]
  rfl

theorem boldRep_close {cs g r : List Char} (h : findClose cs = some (g, r)) :
    boldReplace ('*' :: '*' :: cs) = strongO ++ g ++ strongC ++ boldReplace r := by
  show boldGo (cs.length + 1 + 1) ('*' :: '*' :: cs) = _
  rw [boldGo_close (cs.length + 1) h]
  rcases findClose_structure h with ⟨hshape, _⟩
  rw [boldGo_eq_boldReplace (cs.length + 1) (by rw [hshape]; simp; omega)]

/-- Recursion principle following the shape of the global replacement: the
empty text, a non-opening head character, an opening `**` with no reachable
close, and a full match with its group. -/
theorem boldRec (P : List Char → Prop)
    (h1 : P [])
    (h2 : ∀ c cs, ¬(c = '*' ∧ cs.head? = some '*') → P cs → P (c :: cs))
    (h3 : ∀ cs, findClose cs = none → P ('*' :: cs) → P ('*' :: '*' :: cs))
    (h4 : ∀ g r cs, findClose cs = some (g, r) → cs = g ++ '*' :: '*' :: r →
      P r → P ('*' :: '*' :: cs)) :
    ∀ l, P l := by
  suffices h : ∀ n (l : List Char), l.length ≤ n → P l from fun l => h l.length l le_rfl
  intro n
  induction n with
  | zero =>
    intro l hl
    rcases List.eq_nil_of_length_eq_zero (Nat.le_zero.mp hl) with rfl
    exact h1
  | succ n ih =>
    intro l hl
    cases l with
    | nil => exact h1
    | cons c cs =>
      by_cases hm : c = '*' ∧ cs.head? = some '*'
      · rcases hm with ⟨rfl, hh⟩
        cases cs with
        | nil => simp at hh
        | cons d cs2 =>
          simp only [List.head?_cons, Option.some.injEq] at hh
          subst hh
          simp only [List.length_cons] at hl
          cases hfc : findClose cs2 with
          | none => exact h3 cs2 hfc (ih _ (by simpa using Nat.lt_of_succ_le hl))
          | some gr =>
            rcases gr with ⟨g, r⟩
            rcases findClose_structure hfc with ⟨hshape, _⟩
            have hr : r.length + g.length + 2 = cs2.length := by
              rw [hshape]; simp; omega
            exact h4 g r cs2 hfc hshape (ih r (by omega))
      · simp only [List.length_cons] at hl
        exact h2 c cs hm (ih cs (by omega))


/-! ## Lemma layer: structure of the bold replacement -/

theorem boldRep_append_noStar {a : List Char} (rest : List Char)
    (h : ∀ c ∈ a, c ≠ '*') : boldReplace (a ++ rest) = a ++ boldReplace rest := by
  induction a with
  | nil => rfl
  | cons c a' ih =>
    have hc : c ≠ '*' := h c (List.mem_cons_self c a')
    rw [List.cons_append, boldRep_cons_nomatch (by intro hcon; exact hc hcon.1),
      ih (fun x hx => h x (List.mem_cons_of_mem c hx))]
    rfl

theorem boldRep_noStar_id {a : List Char} (h : ∀ c ∈ a, c ≠ '*') :
    boldReplace a = a := by
  have h2 := boldRep_append_noStar [] h
  rw [List.append_nil] at h2
  rw [h2, boldRep_nil, List.append_nil]

theorem findClose_first {g : List Char} (r : List Char)
    (h : ∀ c ∈ g, dotM c = true ∧ c ≠ '*') :
    findClose (g ++ '*' :: '*' :: r) = some (g, r) := by
  induction g with
  | nil => exact findClose_close r
  | cons c g' ih =>
    rcases h c (List.mem_cons_self c g') with ⟨hd, hc⟩
    rw [List.cons_append, findClose_advance (by intro hcon; exact hc hcon.1) hd,
      ih (fun x hx => h x (List.mem_cons_of_mem c hx))]
    rfl

theorem boldRep_pair {g : List Char} (r : List Char)
    (h : ∀ c ∈ g, dotM c = true ∧ c ≠ '*') :
    boldReplace ('*' :: '*' :: (g ++ '*' :: '*' :: r)) =
      strongO ++ g ++ strongC ++ boldReplace r :=
  boldRep_close (findClose_first r h)

theorem bold_no_nl : ∀ l : List Char, '\n' ∉ l → '\n' ∉ boldReplace l := by
  refine boldRec (fun l => '\n' ∉ l → '\n' ∉ boldReplace l) ?_ ?_ ?_ ?_
  · intro _
    rw [boldRep_nil]
    simp
  · intro c cs hm ih hl
    rw [boldRep_cons_nomatch hm]
    intro hmem
    rcases List.mem_cons.mp hmem with rfl | hmem
    · exact hl (List.mem_cons_self _ _)
    · exact ih (fun h => hl (List.mem_cons_of_mem c h)) hmem
  · intro cs hfc ih hl
    rw [boldRep_noclose hfc]
    intro hmem
    rcases List.mem_cons.mp hmem with h | hmem
    · simp at h
    · refine ih ?_ hmem
      intro h
      rcases List.mem_cons.mp h with h' | h'
      · simp at h'
      · exact hl (List.mem_cons_of_mem _ (List.mem_cons_of_mem _ h'))
  · intro g r cs hfc hshape ih hl
    rw [boldRep_close hfc]
    have hg : '\n' ∉ g := by
      intro h
      exact hl (by subst hshape; simp [h])
    have hr : '\n' ∉ r := by
      intro h
      exact hl (by subst hshape; simp [h])
    intro hmem
    simp only [List.append_assoc, List.mem_append] at hmem
    rcases hmem with h | h | h | h
    · simp [strongO] at h
    · exact hg h
    · simp [strongC] at h
    · exact ih hr h

theorem bold_break : ∀ a b : List Char,
    boldReplace (a ++ '\n' :: b) = boldReplace a ++ '\n' :: boldReplace b := by
  intro a
  induction a using boldRec with
  | h1 =>
    intro b
    rw [boldRep_nil, List.nil_append, List.nil_append,
      boldRep_cons_nomatch (by intro hcon; simp at hcon)]
  | h2 c cs hm ih =>
    intro b
    have hm' : ¬(c = '*' ∧ (cs ++ '\n' :: b).head? = some '*') := by
      intro hcon
      refine hm ⟨hcon.1, ?_⟩
      cases cs with
      | nil => simp at hcon
      | cons d ds => simpa using hcon.2
    rw [List.cons_append, boldRep_cons_nomatch hm', ih b, boldRep_cons_nomatch hm]
    rfl
  | h3 cs hfc ih =>
    intro b
    have hfc' : findClose (cs ++ '\n' :: b) = none := findClose_append_nl b hfc
    have h0 : ('*' :: '*' :: cs) ++ '\n' :: b = '*' :: '*' :: (cs ++ '\n' :: b) := rfl
    rw [h0, boldRep_noclose hfc']
    have h1 : '*' :: (cs ++ '\n' :: b) = ('*' :: cs) ++ '\n' :: b := rfl
    rw [h1, ih b, boldRep_noclose hfc]
    rfl
  | h4 g r cs hfc hshape ih =>
    intro b
    have hfc' : findClose (cs ++ '\n' :: b) = some (g, r ++ '\n' :: b) :=
      findClose_append_some _ hfc
    have h0 : ('*' :: '*' :: cs) ++ '\n' :: b = '*' :: '*' :: (cs ++ '\n' :: b) := rfl
    rw [h0, boldRep_close hfc', ih b, boldRep_close hfc]
    simp [List.append_assoc]

/-! ## Lemma layer: `splitNl` -/

theorem splitNl_ne_nil (l : List Char) : splitNl l ≠ [] := by
  cases l with
  | nil => simp [splitNl]
  | cons c cs =>
    rw [splitNl]
    by_cases hc : c = '\n'
    · rw [if_pos hc]; simp
    · rw [if_neg hc]
      cases splitNl cs <;> simp

theorem splitNl_no_nl {l : List Char} (h : '\n' ∉ l) : splitNl l = [l] := by
  induction l with
  | nil => rfl
  | cons c cs ih =>
    have hc : ¬(c = '\n') := fun hcon => h (by simp [hcon])
    rw [splitNl, if_neg hc, ih (fun hm => h (List.mem_cons_of_mem c hm))]

theorem splitNl_break {a : List Char} (b : List Char) (h : '\n' ∉ a) :
    splitNl (a ++ '\n' :: b) = a :: splitNl b := by
  induction a with
  | nil =>
    rw [List.nil_append, splitNl, if_pos rfl]
  | cons c cs ih =>
    have hc : ¬(c = '\n') := fun hcon => h (by simp [hcon])
    rw [List.cons_append, splitNl, if_neg hc,
      ih (fun hm => h (List.mem_cons_of_mem c hm))]

theorem splitNl_cons_head : ∀ {cs g : List Char} {gs : List (List Char)},
    splitNl cs = g :: gs → ∃ rest, cs = g ++ rest := by
  intro cs
  induction cs with
  | nil =>
    intro g gs h
    rw [splitNl] at h
    rcases List.cons.injEq .. ▸ h with h'
    obtain ⟨h1, _⟩ := List.cons.injEq .. |>.mp h
    exact ⟨[], by simp [← h1]⟩
  | cons c cs' ih =>
    intro g gs h
    by_cases hc : c = '\n'
    · subst hc
      rw [splitNl, if_pos rfl] at h
      obtain ⟨h1, _⟩ := List.cons.injEq .. |>.mp h
      exact ⟨'\n' :: cs', by simp [← h1]⟩
    · rw [splitNl, if_neg hc] at h
      cases hs : splitNl cs' with
      | nil => exact absurd hs (splitNl_ne_nil cs')
      | cons g' gs' =>
        rw [hs] at h
        obtain ⟨h1, _⟩ := List.cons.injEq .. |>.mp h
        rcases ih hs with ⟨rest, hrest⟩
        exact ⟨rest, by rw [← h1]; simp [hrest]⟩

theorem splitNl_mem_parts : ∀ {l ln : List Char}, ln ∈ splitNl l →
    ∃ a b, l = a ++ ln ++ b := by
  intro l
  induction l with
  | nil =>
    intro ln h
    rw [splitNl] at h
    rcases List.mem_singleton.mp h with rfl
    exact ⟨[], [], by simp⟩
  | cons c cs ih =>
    intro ln h
    by_cases hc : c = '\n'
    · subst hc
      rw [splitNl, if_pos rfl] at h
      rcases List.mem_cons.mp h with rfl | h
      · exact ⟨[], '\n' :: cs, by simp⟩
      · rcases ih h with ⟨a, b, rfl⟩
        exact ⟨'\n' :: a, b, by simp⟩
    · rw [splitNl, if_neg hc] at h
      cases hs : splitNl cs with
      | nil => exact absurd hs (splitNl_ne_nil cs)
      | cons g gs =>
        rw [hs] at h
        rcases List.mem_cons.mp h with rfl | h
        · rcases splitNl_cons_head hs with ⟨rest, hrest⟩
          exact ⟨[], rest, by simp [hrest]⟩
        · have hmem : ln ∈ splitNl cs := by rw [hs]; exact List.mem_cons_of_mem g h
          rcases ih hmem with ⟨a, b, rfl⟩
          exact ⟨c :: a, b, by simp⟩

theorem firstNl : ∀ {l : List Char}, '\n' ∈ l →
    ∃ a b, l = a ++ '\n' :: b ∧ '\n' ∉ a := by
  intro l
  induction l with
  | nil => intro h; simp at h
  | cons c cs ih =>
    intro h
    by_cases hc : c = '\n'
    · subst hc
      exact ⟨[], cs, rfl, by simp⟩
    · have hmem : '\n' ∈ cs := by
        rcases List.mem_cons.mp h with h' | h'
        · exact absurd h'.symm hc
        · exact h'
      rcases ih hmem with ⟨a, b, rfl, hna⟩
      refine ⟨c :: a, b, rfl, ?_⟩
      intro hcon
      rcases List.mem_cons.mp hcon with h' | h'
      · exact hc h'.symm
      · exact hna h'

theorem lines_bold : ∀ l : List Char,
    splitNl (boldReplace l) = (splitNl l).map boldReplace := by
  suffices h : ∀ n (l : List Char), l.length ≤ n →
      splitNl (boldReplace l) = (splitNl l).map boldReplace from
    fun l => h l.length l le_rfl
  intro n
  induction n with
  | zero =>
    intro l hl
    rcases List.eq_nil_of_length_eq_zero (Nat.le_zero.mp hl) with rfl
    rfl
  | succ n ih =>
    intro l hl
    by_cases hnl : '\n' ∈ l
    · rcases firstNl hnl with ⟨a, b, rfl, hna⟩
      rw [bold_break a b, splitNl_break _ (bold_no_nl a hna), splitNl_break _ hna]
      have hblen : b.length ≤ n := by
        simp only [List.length_append, List.length_cons] at hl
        omega
      rw [ih b hblen]
      rfl
    · rw [splitNl_no_nl (bold_no_nl l hnl), splitNl_no_nl hnl]
      rfl

/-! ## Lemma layer: JS trim -/

theorem ws_ne_star {c : Char} (h : isWsChar c = true) : c ≠ '*' := by
  intro hc
  subst hc
  exact absurd h (by decide)

theorem hasNonWs_cons (c : Char) (l : List Char) :
    hasNonWs (c :: l) = (!(isWsChar c) || hasNonWs l) := by
  simp [hasNonWs]

theorem hasNonWs_append (a b : List Char) :
    hasNonWs (a ++ b) = (hasNonWs a || hasNonWs b) := by
  simp [hasNonWs, List.any_append]

theorem dropTrail_eq_nil_iff (l : List Char) :
    dropTrail l = [] ↔ hasNonWs l = false := by
  unfold dropTrail
  rw [List.reverse_eq_nil_iff, List.dropWhile_eq_nil_iff]
  simp [hasNonWs]

theorem dropTrail_cons (a : Char) (l : List Char) :
    dropTrail (a :: l) =
      if hasNonWs l then a :: dropTrail l else (if isWsChar a then [] else [a]) := by
  show ((a :: l).reverse.dropWhile isWsChar).reverse = _
  rw [List.reverse_cons a l, List.dropWhile_append]
  by_cases h : hasNonWs l
  · have hne : l.reverse.dropWhile isWsChar ≠ [] := by
      intro hcon
      have : dropTrail l = [] := by simp [dropTrail, hcon]
      rw [dropTrail_eq_nil_iff] at this
      rw [this] at h
      exact Bool.false_ne_true h
    rw [if_neg (by simpa using hne), if_pos h]
    rw [List.reverse_append]
    rfl
  · have hnil : l.reverse.dropWhile isWsChar = [] := by
      have : dropTrail l = [] := by
        rw [dropTrail_eq_nil_iff]
        exact Bool.not_eq_true _ ▸ h
      simpa [dropTrail, List.reverse_eq_nil_iff] using this
    rw [if_pos (by simpa using hnil), if_neg h]
    by_cases ha : isWsChar a
    · rw [List.dropWhile_cons_of_pos ha, if_pos ha]
      rfl
    · rw [if_neg ha]
      have ha' := Bool.not_eq_true _ ▸ ha
      simp [List.dropWhile, ha']

theorem dropTrail_prefix (l : List Char) : ∃ t, l = dropTrail l ++ t := by
  refine ⟨(l.reverse.takeWhile isWsChar).reverse, ?_⟩
  show l = (l.reverse.dropWhile isWsChar).reverse ++ (l.reverse.takeWhile isWsChar).reverse
  rw [← List.reverse_append, List.takeWhile_append_dropWhile, List.reverse_reverse]

theorem dropTrail_head {l : List Char} (h : dropTrail l ≠ []) :
    (dropTrail l).head? = l.head? := by
  rcases dropTrail_prefix l with ⟨t, ht⟩
  cases hd : dropTrail l with
  | nil => exact absurd hd h
  | cons d ds =>
    rw [hd] at ht
    rw [ht]
    rfl

theorem occursIn_dropTrail {p l : List Char} (h : occursIn p (dropTrail l) = true) :
    occursIn p l = true := by
  rcases dropTrail_prefix l with ⟨t, ht⟩
  rw [ht]
  exact occursIn_append_left t h

theorem occursIn_dropWhile {p : List Char} {f : Char → Bool} {l : List Char}
    (h : occursIn p (l.dropWhile f) = true) : occursIn p l = true := by
  have hsplit : l = l.takeWhile f ++ l.dropWhile f :=
    (List.takeWhile_append_dropWhile f l).symm
  rw [hsplit]
  exact occursIn_append_right _ h

theorem occursIn_jsTrim {p l : List Char} (h : occursIn p (jsTrim l) = true) :
    occursIn p l = true :=
  occursIn_dropWhile (occursIn_dropTrail h)

/-- Characterisation of "trims to a bullet prefix": after dropping trailing
whitespace the text starts with `'* '` exactly when it literally starts with
`'* '` followed by some non-whitespace content. -/
theorem bullet_dropTrail (y : List Char) :
    leadsWith starSpace (dropTrail y) = true ↔
      ∃ s, y = '*' :: ' ' :: s ∧ hasNonWs s = true := by
  constructor
  · intro h
    match y with
    | [] =>
      rw [show dropTrail [] = [] from rfl] at h
      simp [starSpace, leadsWith] at h
    | [a] =>
      rw [dropTrail_cons] at h
      simp only [hasNonWs, List.any_nil] at h
      rw [if_neg (by simp)] at h
      by_cases ha : isWsChar a
      · rw [if_pos ha] at h
        simp [starSpace, leadsWith] at h
      · rw [if_neg ha] at h
        simp [starSpace, leadsWith] at h
    | a :: b :: X =>
      rw [dropTrail_cons] at h
      by_cases h1 : hasNonWs (b :: X)
      · rw [if_pos h1] at h
        simp only [starSpace, leadsWith, Bool.and_eq_true, decide_eq_true_eq] at h
        rcases h with ⟨rfl, h⟩
        rw [dropTrail_cons] at h
        by_cases h2 : hasNonWs X
        · rw [if_pos h2] at h
          simp only [leadsWith, Bool.and_eq_true, decide_eq_true_eq] at h
          rcases h with ⟨rfl, _⟩
          exact ⟨X, rfl, h2⟩
        · rw [if_neg h2] at h
          by_cases hb : isWsChar b
          · rw [if_pos hb] at h
            simp [leadsWith] at h
          · rw [if_neg hb] at h
            simp only [leadsWith, Bool.and_eq_true, decide_eq_true_eq] at h
            rcases h with ⟨rfl, _⟩
            exact absurd (by decide : isWsChar ' ' = true) (by simpa using hb)
      · rw [if_neg h1] at h
        by_cases ha : isWsChar a
        · rw [if_pos ha] at h
          simp [starSpace, leadsWith] at h
        · rw [if_neg ha] at h
          simp [starSpace, leadsWith] at h
  · rintro ⟨s, rfl, hs⟩
    rw [dropTrail_cons, if_pos (by simp [hasNonWs_cons, hs]),
      dropTrail_cons, if_pos hs]
    simp [starSpace, leadsWith]

/-! ## Lemma layer: bold replacement preserves bullet lines -/

theorem hasNonWs_bold : ∀ l : List Char, hasNonWs (boldReplace l) = hasNonWs l := by
  refine boldRec (fun l => hasNonWs (boldReplace l) = hasNonWs l) ?_ ?_ ?_ ?_
  · rfl
  · intro c cs hm ih
    rw [boldRep_cons_nomatch hm, hasNonWs_cons, hasNonWs_cons, ih]
  · intro cs hfc ih
    rw [boldRep_noclose hfc, hasNonWs_cons, ih]
    have hstar : isWsChar '*' = false := by decide
    simp [hasNonWs_cons, hstar]
  · intro g r cs hfc hshape ih
    rw [boldRep_close hfc]
    have h1 : hasNonWs strongO = true := by decide
    have h2 : hasNonWs ('*' :: '*' :: cs) = true := by
      have hstar : isWsChar '*' = false := by decide
      simp [hasNonWs_cons, hstar]
    rw [h2, hasNonWs_append, hasNonWs_append, hasNonWs_append, h1]
    rfl

theorem bold_head (c : Char) (cs : List Char) :
    ∃ d ds, boldReplace (c :: cs) = d :: ds ∧ (d = c ∨ d = '<' ∨ d = '*') := by
  by_cases hm : c = '*' ∧ cs.head? = some '*'
  · rcases hm with ⟨rfl, hh⟩
    cases cs with
    | nil => simp at hh
    | cons e cs2 =>
      simp only [List.head?_cons, Option.some.injEq] at hh
      subst hh
      cases hfc : findClose cs2 with
      | none =>
        rw [boldRep_noclose hfc]
        exact ⟨'*', _, rfl, Or.inr (Or.inr rfl)⟩
      | some gr =>
        rcases gr with ⟨g, r⟩
        rw [boldRep_close hfc]
        exact ⟨'<', _, rfl, Or.inr (Or.inl rfl)⟩
  · rw [boldRep_cons_nomatch hm]
    exact ⟨c, _, rfl, Or.inl rfl⟩

theorem dropWhile_ws_append {w : List Char} (y : List Char)
    (h : ∀ c ∈ w, isWsChar c = true) :
    (w ++ y).dropWhile isWsChar = y.dropWhile isWsChar := by
  induction w with
  | nil => rfl
  | cons c w' ih =>
    rw [List.cons_append, List.dropWhile_cons_of_pos (h c (List.mem_cons_self c w'))]
    exact ih (fun x hx => h x (List.mem_cons_of_mem c hx))

theorem dropWhile_ws_bold {rest : List Char}
    (h : rest.dropWhile isWsChar = rest) :
    (boldReplace rest).dropWhile isWsChar = boldReplace rest := by
  cases rest with
  | nil => rfl
  | cons c cs =>
    have hc : isWsChar c = false := by
      by_contra hcon
      have hc' : isWsChar c = true := by
        cases hx : isWsChar c
        · exact absurd hx hcon
        · rfl
      rw [List.dropWhile_cons_of_pos hc'] at h
      have hlen := congrArg List.length h
      have hle : (List.dropWhile isWsChar cs).length ≤ cs.length := by
        clear h hlen
        induction cs with
        | nil => simp
        | cons d ds ih =>
          rw [List.dropWhile_cons]
          by_cases hd : isWsChar d = true
          · rw [if_pos hd]
            simp
            omega
          · rw [if_neg hd]
      simp at hlen
      omega
    rcases bold_head c cs with ⟨d, ds, hbold, hd⟩
    rw [hbold]
    have hdws : isWsChar d = false := by
      rcases hd with rfl | rfl | rfl
      · exact hc
      · decide
      · decide
    simp [List.dropWhile, hdws]

/-- The bold replacement neither creates nor destroys bullet lines. -/
theorem bullet_bold (ln : List Char) :
    isBulletLine (boldReplace ln) = isBulletLine ln := by
  have hsplit : ln = ln.takeWhile isWsChar ++ ln.dropWhile isWsChar :=
    (List.takeWhile_append_dropWhile isWsChar ln).symm
  set w := ln.takeWhile isWsChar with hw
  set rest := ln.dropWhile isWsChar with hrest
  have hwall : ∀ c ∈ w, isWsChar c = true := fun c hc => List.mem_takeWhile_imp hc
  have hbold : boldReplace ln = w ++ boldReplace rest := by
    conv_lhs => rw [hsplit]
    exact boldRep_append_noStar rest (fun c hc => ws_ne_star (hwall c hc))
  have hrid : rest.dropWhile isWsChar = rest := by
    rw [hrest]
    exact List.dropWhile_idempotent ..
  unfold isBulletLine jsTrim
  rw [hbold, dropWhile_ws_append _ hwall, dropWhile_ws_bold hrid]
  conv_rhs => rw [hsplit, dropWhile_ws_append _ hwall, hrid]
  -- goal: bulletness of `dropTrail (boldReplace rest)` vs `dropTrail rest`
  rcases hLHS : leadsWith starSpace (dropTrail (boldReplace rest)) with _ | _
  · rcases hRHS : leadsWith starSpace (dropTrail rest) with _ | _
    · rfl
    · -- rest is a bullet, so its bold replacement must be one: contradiction
      exfalso
      rcases (bullet_dropTrail rest).mp hRHS with ⟨s, hrfl, hs⟩
      have hb : boldReplace rest = '*' :: ' ' :: boldReplace s := by
        rw [hrfl, boldRep_cons_nomatch (by intro hcon; simp at hcon),
          boldRep_cons_nomatch (by intro hcon; simp at hcon)]
      have : leadsWith starSpace (dropTrail (boldReplace rest)) = true := by
        refine (bullet_dropTrail _).mpr ⟨boldReplace s, hb, ?_⟩
        rw [hasNonWs_bold s]
        exact hs
      rw [hLHS] at this
      exact Bool.false_ne_true this
  · rcases (bullet_dropTrail _).mp hLHS with ⟨s', hb, hs'⟩
    -- the bold replacement starts with `'* '`; recover the same shape in rest
    cases hr : rest with
    | nil =>
      rw [hr] at hb
      simp [boldRep_nil] at hb
    | cons c cs =>
      rw [hr] at hb
      by_cases hm : c = '*' ∧ cs.head? = some '*'
      · rcases hm with ⟨rfl, hh⟩
        cases cs with
        | nil => simp at hh
        | cons e cs2 =>
          simp only [List.head?_cons, Option.some.injEq] at hh
          subst hh
          cases hfc : findClose cs2 with
          | none =>
            rw [boldRep_noclose hfc] at hb
            obtain ⟨-, hb2⟩ := List.cons.injEq .. |>.mp hb
            rcases bold_head '*' cs2 with ⟨d, ds, hbold2, hd⟩
            rw [hbold2] at hb2
            obtain ⟨hb3, -⟩ := List.cons.injEq .. |>.mp hb2
            rcases hd with rfl | rfl | rfl <;> simp at hb3
          | some gr =>
            rcases gr with ⟨g, r⟩
            rw [boldRep_close hfc] at hb
            obtain ⟨hb1, -⟩ := List.cons.injEq .. |>.mp hb
            simp [strongO] at hb1
      · rw [boldRep_cons_nomatch hm] at hb
        obtain ⟨hb1, hb2⟩ := List.cons.injEq .. |>.mp hb
        subst hb1
        cases hcs : cs with
        | nil =>
          rw [hcs] at hb2
          simp [boldRep_nil] at hb2
        | cons e cs2 =>
          rw [hcs] at hb2
          rcases bold_head e cs2 with ⟨d, ds, hbold2, hd⟩
          rw [hbold2] at hb2
          obtain ⟨hb3, hb4⟩ := List.cons.injEq .. |>.mp hb2
          have he : e = ' ' := by
            rcases hd with rfl | rfl | rfl
            · exact hb3
            · exact absurd hb3 (by decide)
            · exact absurd hb3 (by decide)
          subst he
          -- rest = '*' :: ' ' :: cs2, and its bold form is '*' :: ' ' :: bold cs2
          have hbcs : boldReplace (' ' :: cs2) = ' ' :: boldReplace cs2 :=
            boldRep_cons_nomatch (by intro hcon; simp at hcon)
          rw [hbcs] at hbold2
          obtain ⟨-, hb5⟩ := List.cons.injEq .. |>.mp hbold2
          have hval : hasNonWs cs2 = true := by
            have hw2 : hasNonWs (boldReplace cs2) = true := by
              rw [hb5, hb4]
              exact hs'
            rw [hasNonWs_bold cs2] at hw2
            exact hw2
          have hRHS : leadsWith starSpace (dropTrail ('*' :: ' ' :: cs2)) = true :=
            (bullet_dropTrail _).mpr ⟨cs2, rfl, hval⟩
          rw [hRHS]

/-! ## Lemma layer: the bold replacement introduces no list markup -/

theorem getLast?_ne_nil {α : Type} {l : List α} (h : l ≠ []) : ∃ c, l.getLast? = some c := by
  cases hx : l.getLast? with
  | some c => exact ⟨c, rfl⟩
  | none => exact absurd (List.getLast?_eq_none_iff.mp hx) h

theorem getLast?_of_suffix {α : Type} {u s : List α} (h : s ≠ []) :
    (u ++ s).getLast? = s.getLast? := by
  rcases getLast?_ne_nil h with ⟨c, hc⟩
  rw [List.getLast?_append, hc]
  rfl

theorem proper_split_getLast {p s t : List Char} (hp : p = s ++ t)
    (hs : s ≠ []) (ht : t ≠ []) :
    ∃ c, s.getLast? = some c ∧ c ∈ p.dropLast := by
  rcases getLast?_ne_nil hs with ⟨c, hc⟩
  refine ⟨c, hc, ?_⟩
  rw [hp, List.dropLast_append_of_ne_nil _ ht]
  exact List.mem_append_left _ (List.mem_of_mem_getLast? (by rw [hc]; rfl))

theorem leadsWith_head {t0 c : Char} {t' rest : List Char}
    (h : leadsWith (t0 :: t') (c :: rest) = true) : t0 = c := by
  simp only [leadsWith, Bool.and_eq_true, decide_eq_true_eq] at h
  exact h.1

theorem leadsWith_transfer : ∀ q : List Char, '<' ∉ q → '*' ∉ q →
    ∀ cs : List Char, leadsWith q (boldReplace cs) = true → leadsWith q cs = true := by
  intro q
  induction q with
  | nil =>
    intro _ _ cs _
    exact leadsWith_nil cs
  | cons d q' ih =>
    intro h1 h2 cs h
    have hd1 : d ≠ '<' := fun hcon => h1 (by simp [hcon])
    have hd2 : d ≠ '*' := fun hcon => h2 (by simp [hcon])
    have h1' : '<' ∉ q' := fun hcon => h1 (List.mem_cons_of_mem d hcon)
    have h2' : '*' ∉ q' := fun hcon => h2 (List.mem_cons_of_mem d hcon)
    cases cs with
    | nil =>
      rw [boldRep_nil] at h
      simp [leadsWith] at h
    | cons c cs' =>
      by_cases hm : c = '*' ∧ cs'.head? = some '*'
      · rcases hm with ⟨rfl, hh⟩
        cases cs' with
        | nil => simp at hh
        | cons e cs2 =>
          simp only [List.head?_cons, Option.some.injEq] at hh
          subst hh
          cases hfc : findClose cs2 with
          | none =>
            rw [boldRep_noclose hfc] at h
            exact absurd (leadsWith_head h) hd2
          | some gr =>
            rcases gr with ⟨g, r⟩
            rw [boldRep_close hfc] at h
            have : d = '<' := leadsWith_head (by simpa [strongO] using h)
            exact absurd this hd1
      · rw [boldRep_cons_nomatch hm] at h
        simp only [leadsWith, Bool.and_eq_true, decide_eq_true_eq] at h ⊢
        exact ⟨h.1, ih h1' h2' cs' h.2⟩

/-- Generic "no new occurrence" lemma for a pattern of the form `'<' :: q`
whose tail avoids `'<'` and `'*'`, whose proper prefixes do not end in `'>'`,
and which occurs in neither strong tag: every occurrence in the replaced text
comes from an occurrence in the original text. -/
theorem bold_no_intro (q : List Char)
    (hq1 : '<' ∉ q) (hq2 : '*' ∉ q) (hnd : '>' ∉ ('<' :: q).dropLast)
    (hso : occursIn ('<' :: q) strongO = false)
    (hsc : occursIn ('<' :: q) strongC = false) :
    ∀ l : List Char, occursIn ('<' :: q) (boldReplace l) = true →
      occursIn ('<' :: q) l = true := by
  set p := '<' :: q with hp
  have hspanTagEnd : ∀ s t u (x : List Char), p = s ++ t → s ≠ [] → t ≠ [] →
      x = u ++ s → x.getLast? = some '>' → False := by
    intro s t u x hsplit hs ht hx hlast
    rcases proper_split_getLast hsplit hs ht with ⟨c, hc, hmem⟩
    have : (u ++ s).getLast? = some '>' := by rw [← hx]; exact hlast
    rw [getLast?_of_suffix hs, hc] at this
    obtain rfl := Option.some.injEq .. |>.mp this
    exact hnd hmem
  have htailq : ∀ s t, p = s ++ t → s ≠ [] → ∀ c ∈ t, c ∈ q := by
    intro s t hsplit hs c hc
    cases s with
    | nil => exact absurd rfl hs
    | cons s0 s' =>
      rw [hp] at hsplit
      obtain ⟨-, hq⟩ := List.cons.injEq .. |>.mp hsplit
      rw [hq]
      exact List.mem_append_right s' hc
  refine boldRec (fun l => occursIn p (boldReplace l) = true → occursIn p l = true) ?_ ?_ ?_ ?_
  · intro h
    rw [boldRep_nil] at h
    exact h
  · intro c cs hm ih h
    rw [boldRep_cons_nomatch hm] at h
    simp only [occursIn, Bool.or_eq_true] at h ⊢
    rcases h with h | h
    · left
      rw [hp] at h ⊢
      simp only [leadsWith, Bool.and_eq_true, decide_eq_true_eq] at h ⊢
      exact ⟨h.1, leadsWith_transfer q hq1 hq2 cs h.2⟩
    · exact Or.inr (ih h)
  · intro cs hfc ih h
    rw [boldRep_noclose hfc] at h
    simp only [occursIn, Bool.or_eq_true] at h
    rcases h with h | h
    · rw [hp] at h
      have : '<' = '*' := leadsWith_head h
      simp at this
    · have h2 := ih h
      simp only [occursIn, Bool.or_eq_true] at h2 ⊢
      exact Or.inr h2
  · intro g r cs hfc hshape ih h
    rw [boldRep_close hfc] at h
    have hl : occursIn p cs = true → occursIn p ('*' :: '*' :: cs) = true := by
      intro hx
      exact occursIn_cons _ (occursIn_cons _ hx)
    rw [List.append_assoc, List.append_assoc] at h
    rcases occursIn_append_decomp h with h1 | h1 | ⟨s, t, u, hsplit, hs, ht, hx, hlead⟩
    · rw [hso] at h1
      exact absurd h1 (by simp)
    · rcases occursIn_append_decomp h1 with h2 | h2 | ⟨s, t, u, hsplit, hs, ht, hx, hlead⟩
      · apply hl
        rw [hshape]
        exact occursIn_append_left _ h2
      · rcases occursIn_append_decomp h2 with h3 | h3 | ⟨s, t, u, hsplit, hs, ht, hx, hlead⟩
        · rw [hsc] at h3
          exact absurd h3 (by simp)
        · apply hl
          rw [hshape]
          exact occursIn_append_right g
            (occursIn_cons _ (occursIn_cons _ (ih h3)))
        · exact (hspanTagEnd s t u strongC hsplit hs ht hx (by decide)).elim
      · -- span across `g` and `strongC ++ boldReplace r`: the continuation
        -- would have to start with `'<'`, impossible for a tail of `q`
        have ht0 : ∃ t0 t', t = t0 :: t' := by
          cases t with
          | nil => exact absurd rfl ht
          | cons t0 t' => exact ⟨t0, t', rfl⟩
        rcases ht0 with ⟨t0, t', rfl⟩
        have : t0 = '<' := leadsWith_head (by simpa [strongC] using hlead)
        subst this
        exact absurd (htailq _ _ hsplit hs '<' (List.mem_cons_self _ _)) hq1
    · exact (hspanTagEnd s t u strongO hsplit hs ht hx (by decide)).elim

theorem bold_no_intro_ul (l : List Char)
    (h : occursIn ulO (boldReplace l) = true) : occursIn ulO l = true :=
  bold_no_intro ['u', 'l', '>'] (by decide) (by decide) (by decide) (by decide) (by decide) l h

theorem bold_no_intro_li (l : List Char)
    (h : occursIn liO (boldReplace l) = true) : occursIn liO l = true :=
  bold_no_intro ['l', 'i', '>'] (by decide) (by decide) (by decide) (by decide) (by decide) l h

/-! ## Lemma layer: structure of `formatResponse` -/

/-- `formatResponse` is exactly: bold replacement, then the bullet
restructuring, then the final trim. -/
theorem formatResponse_steps (l : List Char) :
    formatResponseL l = jsTrim (bulletRestructure (boldReplace l)) := rfl

theorem formatResponse_no_bullets {l : List Char}
    (h : occursIn starSpace (boldReplace l) = false) :
    formatResponseL l = jsTrim (boldReplace l) := by
  rw [formatResponse_steps, bulletRestructure, if_neg (by rw [h]; simp)]

theorem formatResponse_bullets {l : List Char}
    (h : occursIn starSpace (boldReplace l) = true) :
    formatResponseL l =
      jsTrim (List.intercalate brL ((splitNl (boldReplace l)).filter fun ln => !(isBulletLine ln))
        ++ ulO ++ (((splitNl (boldReplace l)).filter fun ln => isBulletLine ln).map mkListItem).flatten
        ++ ulC) := by
  rw [formatResponse_steps, bulletRestructure, if_pos (by rw [h])]

theorem mapFilterSwap {α β : Type} (f : α → β) (P : β → Bool) :
    ∀ xs : List α, (xs.map f).filter P = (xs.filter fun x => P (f x)).map f := by
  intro xs
  induction xs with
  | nil => rfl
  | cons x xs ih =>
    rw [List.map_cons, List.filter_cons, List.filter_cons]
    by_cases hx : P (f x) = true
    · rw [if_pos hx, if_pos hx, List.map_cons, ih]
    · rw [if_neg hx, if_neg hx, ih]

theorem guard_of_bullet_line {l ln : List Char}
    (h1 : ln ∈ splitNl l) (h2 : isBulletLine ln = true) :
    occursIn starSpace (boldReplace l) = true := by
  have hb : isBulletLine (boldReplace ln) = true := by
    rw [bullet_bold ln]
    exact h2
  have hmem : boldReplace ln ∈ splitNl (boldReplace l) := by
    rw [lines_bold l]
    exact List.mem_map_of_mem boldReplace h1
  have hocc : occursIn starSpace (boldReplace ln) = true :=
    occursIn_jsTrim (occursIn_of_leadsWith hb)
  rcases splitNl_mem_parts hmem with ⟨a, b, hab⟩
  rw [hab]
  exact occursIn_of_parts a b hocc

/-! ## Lemma layer: interleavings of streaming writes -/

theorem interleave_nil_right {α : Type} : ∀ xs : List α, Interleave xs [] xs := by
  intro xs
  induction xs with
  | nil => exact Interleave.nil
  | cons x xs ih => exact Interleave.consL ih

theorem interleave_right_block {α : Type} (xs : List α) :
    ∀ ys : List α, Interleave xs ys (ys ++ xs) := by
  intro ys
  induction ys with
  | nil => simpa using interleave_nil_right xs
  | cons y ys ih => exact Interleave.consR ih

theorem interleave_head_block {α : Type} (x : α) (xs ys : List α) :
    Interleave (x :: xs) ys (x :: (ys ++ xs)) :=
  Interleave.consL (interleave_right_block xs ys)

theorem taggedAskWrites_cons (tag : Bool) (ans : List Char) :
    taggedAskWrites tag ans =
      (tag, loadingAnswerHTML) ::
        (streamWrites (formatResponseL ans)).map (fun w => (tag, w)) := rfl

theorem streamWrites_getLast (f : List Char) :
    (streamWrites f).getLast? = some f := by
  rw [streamWrites, getLast?_of_suffix (by simp)]
  rfl

theorem map_snd_tagged (tag : Bool) (ws : List (List Char)) :
    (ws.map (fun w => (tag, w))).map Prod.snd = ws := by
  rw [List.map_map]
  simp

/-! ## Claim theorems: the response formatter -/

/-- C2 (counterexample): the claim "inputs with no bullet-prefixed line come
out as the bold-replaced, trimmed input with no list element" fails on the
code: `"a * b"` has no line that trims to a `'* '` prefix, yet
`formatResponse` returns `"a * b<ul></ul>"` — the list branch is guarded by
`includes('* ')`, which also fires on a mid-line `'* '`. -/
theorem c2_counterexample_midline_star_space :
    ((splitNl "a * b".data).all fun ln => !(isBulletLine ln)) = true ∧
    formatResponse "a * b" = "a * b<ul></ul>" ∧
    occursIn ulO (formatResponseL "a * b".data) = true ∧
    formatResponse "a * b" ≠ "a * b" := by
  exact ⟨by decide, by decide, by decide, by decide⟩

/-- C2 (amended): for every input whose bold-replaced text contains no
occurrence of `'* '` at all (not merely no bullet-prefixed line),
`formatResponse` returns the bold-replaced input trimmed, and it introduces
no `<ul>` or `<li>` not already present in the input. -/
theorem c2_amended_no_list_branch :
    ∀ l : List Char, occursIn starSpace (boldReplace l) = false →
      formatResponseL l = jsTrim (boldReplace l) ∧
      (occursIn ulO l = false → occursIn ulO (formatResponseL l) = false) ∧
      (occursIn liO l = false → occursIn liO (formatResponseL l) = false) := by
  intro l h
  refine ⟨formatResponse_no_bullets h, ?_, ?_⟩
  · intro hno
    cases hx : occursIn ulO (formatResponseL l) with
    | false => rfl
    | true =>
      rw [formatResponse_no_bullets h] at hx
      rw [bold_no_intro_ul l (occursIn_jsTrim hx)] at hno
      exact absurd hno (by simp)
  · intro hno
    cases hx : occursIn liO (formatResponseL l) with
    | false => rfl
    | true =>
      rw [formatResponse_no_bullets h] at hx
      rw [bold_no_intro_li l (occursIn_jsTrim hx)] at hno
      exact absurd hno (by simp)

/-- C2 (amended, witness): the amended statement instantiated at
`"no **bold** bullets here"`. -/
theorem c2_amended_no_list_branch_witness :
    formatResponseL "no **bold** bullets here".data =
      jsTrim (boldReplace "no **bold** bullets here".data) ∧
    occursIn ulO (formatResponseL "no **bold** bullets here".data) = false ∧
    occursIn liO (formatResponseL "no **bold** bullets here".data) = false := by
  have h := c2_amended_no_list_branch "no **bold** bullets here".data (by decide)
  exact ⟨h.1, h.2.1 (by decide), h.2.2 (by decide)⟩

/-- C5: `formatResponse` applies the bold rule to the whole text and only
then the bullet restructuring (followed by the final trim), and the order is
observable: on `demoMixed` — which contains a `**`-pair and bullet lines —
composing the two rules in the reverse order yields a different output. -/
theorem c5_bold_before_bullets :
    (∀ l : List Char, formatResponseL l = jsTrim (bulletRestructure (boldReplace l))) ∧
    ((splitNl demoMixed).any fun ln => isBulletLine ln) = true ∧
    occursIn ['*', '*'] demoMixed = true ∧
    formatResponseL demoMixed ≠ jsTrim (boldReplace (bulletRestructure demoMixed)) := by
  exact ⟨formatResponse_steps, by decide, by decide, by decide⟩

/-- C6: whenever some input line trims to a `'* '` prefix, `formatResponse`
turns each such (bold-replaced) line into a `<li>` item — prefix stripped and
trimmed — and joins all other lines, wherever they appear in the input, with
`<br>` before the single `<ul>` list; in particular
`"Intro line\n* first\n* second"` yields the intro line followed by the
two-item list, and a trailing non-bullet line is also moved before the list. -/
theorem c6_bullet_restructuring :
    (∀ l : List Char, (∃ ln ∈ splitNl l, isBulletLine ln = true) →
      formatResponseL l =
        jsTrim (List.intercalate brL
            (((splitNl l).filter fun x => !(isBulletLine x)).map boldReplace)
          ++ ulO
          ++ (((splitNl l).filter fun x => isBulletLine x).map
                fun x => mkListItem (boldReplace x)).flatten
          ++ ulC)) ∧
    formatResponse "Intro line\n* first\n* second"
      = "Intro line<ul><li>first</li><li>second</li></ul>" ∧
    formatResponse "* a\nend" = "end<ul><li>a</li></ul>" := by
  refine ⟨?_, by decide, by decide⟩
  intro l h
  rcases h with ⟨ln, hmem, hb⟩
  rw [formatResponse_bullets (guard_of_bullet_line hmem hb), lines_bold l]
  have hA : (((splitNl l).map boldReplace).filter fun x => !(isBulletLine x))
      = ((splitNl l).filter fun x => !(isBulletLine x)).map boldReplace := by
    rw [mapFilterSwap]
    congr 1
    refine List.filter_congr ?_
    intro x _
    rw [bullet_bold x]
  have hB : (((splitNl l).map boldReplace).filter fun x => isBulletLine x)
      = ((splitNl l).filter fun x => isBulletLine x).map boldReplace := by
    rw [mapFilterSwap]
    congr 1
    refine List.filter_congr ?_
    intro x _
    rw [bullet_bold x]
  rw [hA, hB, List.map_map]
  rfl

/-- C6 (witness): the general bullet-restructuring statement instantiated at
the input `"Intro line\n* first\n* second"`. -/
theorem c6_bullet_restructuring_witness :
    formatResponseL "Intro line\n* first\n* second".data =
      jsTrim (List.intercalate brL
          (((splitNl "Intro line\n* first\n* second".data).filter
              fun x => !(isBulletLine x)).map boldReplace)
        ++ ulO
        ++ (((splitNl "Intro line\n* first\n* second".data).filter
              fun x => isBulletLine x).map fun x => mkListItem (boldReplace x)).flatten
        ++ ulC) :=
  c6_bullet_restructuring.1 "Intro line\n* first\n* second".data (by decide)

/-- C7: every `**`-delimited pair becomes a strong span with the delimiters
stripped — non-greedily and independently for multiple spans in one input —
and the final result is trimmed; in particular `"**Hello** world"` bolds
`Hello`, leaves `world` unbolded and introduces no list, and
`"  **Hi**  "` is trimmed. -/
theorem c7_bold_spans :
    (∀ p g1 m g2 t : List Char,
      (∀ c ∈ p, c ≠ '*') → (∀ c ∈ m, c ≠ '*') → (∀ c ∈ t, c ≠ '*') →
      (∀ c ∈ g1, dotM c = true ∧ c ≠ '*') → (∀ c ∈ g2, dotM c = true ∧ c ≠ '*') →
      boldReplace (p ++ ['*', '*'] ++ g1 ++ ['*', '*'] ++ m
          ++ ['*', '*'] ++ g2 ++ ['*', '*'] ++ t)
        = p ++ strongO ++ g1 ++ strongC ++ m ++ strongO ++ g2 ++ strongC ++ t) ∧
    formatResponse "**Hello** world" = "<strong>Hello</strong> world" ∧
    occursIn ulO (formatResponseL "**Hello** world".data) = false ∧
    occursIn liO (formatResponseL "**Hello** world".data) = false ∧
    formatResponse "  **Hi**  " = "<strong>Hi</strong>" := by
  refine ⟨?_, by decide, by decide, by decide, by decide⟩
  intro p g1 m g2 t hp hm ht hg1 hg2
  have hshape : p ++ ['*', '*'] ++ g1 ++ ['*', '*'] ++ m ++ ['*', '*'] ++ g2 ++ ['*', '*'] ++ t
      = p ++ ('*' :: '*' :: (g1 ++ '*' :: '*' :: (m ++ ('*' :: '*' :: (g2 ++ '*' :: '*' :: t))))) := by
    simp [List.append_assoc]
  rw [hshape, boldRep_append_noStar _ hp, boldRep_pair _ hg1,
    boldRep_append_noStar _ hm, boldRep_pair _ hg2, boldRep_noStar_id ht]
  simp [List.append_assoc]

/-! ## Claim theorems: session state machine and handlers -/

/-- C1 (counterexample): the claim "an ask in a non-Processed state is
rejected locally and makes no remote call" fails for `handleAsk` in
src/popup.js: with `videoProcessed = false` and a nonempty question the
handler invokes the remote `answer_question` call (the variant has no
processed-state guard). -/
theorem c1_counterexample_popup_ask_unguarded :
    ({ basePopup with questionValue := "What is the video about?" } : PopupState).videoProcessed
        = false ∧
    (handleAsk { basePopup with questionValue := "What is the video about?" }
        (PredictResult.ok "an answer")).calls
      = [Call.answerQuestion "What is the video about?"] := by
  exact ⟨rfl, by decide⟩

/-- C1 (amended): only the part_000 variant guards asks: `handleAskQuestion`
rejects every ask made while `videoProcessed` is false with a local
validation message and leaves all other state (including the call trace)
unchanged, for every question and every outcome; the popup.js `handleAsk`
has no such guard — any question that is nonempty after trimming triggers
the remote call regardless of the processed state. -/
theorem c1_amended_ask_guard :
    (∀ (st : PopupStateV0) (o : PredictResult), st.videoProcessed = false →
      handleAskQuestion st o =
        { st with answerHTML :=
            if st.questionValue = "" then "Please enter a question."
            else "You must process a video before asking questions." }) ∧
    (∀ (st : PopupState) (o : PredictResult), ¬(jsTrimStr st.questionValue = "") →
      st.gradioClient = true →
      (handleAsk st o).calls = st.calls ++ [Call.answerQuestion (jsTrimStr st.questionValue)]) := by
  constructor
  · intro st o h
    by_cases hq : st.questionValue = ""
    · rw [handleAskQuestion, if_pos hq, if_pos hq]
    · rw [handleAskQuestion, if_neg hq, if_neg hq, if_pos (by rw [h]; rfl)]
  · intro st o h hcl
    cases o with
    | ok ans => simp [handleAsk, h, hcl]
    | err m => simp [handleAsk, h, hcl]

/-- C1 (amended, witness): the guard in the part_000 variant and the
unguarded call in the popup.js variant, both at a not-processed state with
the question `"Why?"`. -/
theorem c1_amended_ask_guard_witness :
    handleAskQuestion { basePopupV0 with questionValue := "Why?" } (PredictResult.ok "a") =
      { basePopupV0 with
          questionValue := "Why?"
          answerHTML := "You must process a video before asking questions." } ∧
    (handleAsk { basePopup with questionValue := "Why?" } (PredictResult.err "boom")).calls
      = [Call.answerQuestion "Why?"] := by
  constructor
  · have h := c1_amended_ask_guard.1 { basePopupV0 with questionValue := "Why?" }
      (PredictResult.ok "a") rfl
    rw [h]
    decide
  · have h := c1_amended_ask_guard.2 { basePopup with questionValue := "Why?" }
      (PredictResult.err "boom") (by decide) rfl
    rw [h]
    decide

/-- C9: `connectToGradio` is idempotent in both variants: when a client
handle already exists the function returns at once, leaving the whole state
— the handle, the status line, the call trace — unchanged. -/
theorem c9_connect_idempotent :
    (∀ (st : PopupState) (ok : Bool), st.gradioClient = true →
      connectToGradio st ok = st) ∧
    (∀ (st : PopupStateV0) (ok : Bool), st.gradioClient = true →
      connectToGradioV0 st ok = st) := by
  constructor
  · intro st ok h
    rw [connectToGradio, if_pos (by rw [h])]
  · intro st ok h
    rw [connectToGradioV0, if_pos (by rw [h])]

/-- C9 (witness): idempotence at the connected base states. -/
theorem c9_connect_idempotent_witness :
    connectToGradio basePopup true = basePopup ∧
    connectToGradioV0 basePopupV0 false = basePopupV0 :=
  ⟨c9_connect_idempotent.1 basePopup true rfl,
   c9_connect_idempotent.2 basePopupV0 false rfl⟩

/-- C10: an empty question short-circuits both ask handlers in every session
state, with no remote call and no change to `videoProcessed`: part_000
renders `'Please enter a question.'` while popup.js — which trims the value
first, so whitespace-only questions count too — leaves everything, including
the output region, unchanged. -/
theorem c10_empty_question_noop :
    (∀ (st : PopupStateV0) (o : PredictResult), st.questionValue = "" →
      handleAskQuestion st o = { st with answerHTML := "Please enter a question." }) ∧
    (∀ (st : PopupState) (o : PredictResult), jsTrimStr st.questionValue = "" →
      handleAsk st o = st) := by
  constructor
  · intro st o h
    rw [handleAskQuestion, if_pos h]
  · intro st o h
    rw [handleAsk, if_pos h]

/-- C10 (witness): the part_000 handler at an empty question and the
popup.js handler at a whitespace-only question. -/
theorem c10_empty_question_noop_witness :
    handleAskQuestion basePopupV0 (PredictResult.ok "a")
      = { basePopupV0 with answerHTML := "Please enter a question." } ∧
    handleAsk { basePopup with questionValue := "   " } (PredictResult.err "x")
      = { basePopup with questionValue := "   " } :=
  ⟨c10_empty_question_noop.1 basePopupV0 (PredictResult.ok "a") rfl,
   c10_empty_question_noop.2 { basePopup with questionValue := "   " }
     (PredictResult.err "x") (by decide)⟩

/-- C8: a failing ask-question remote call leaves `videoProcessed` intact
(the session stays Processed), renders the error text in the output region
and leaves the ask control enabled, and touches nothing else: in part_000
the handler's `finally` clears the busy flag and only `answerHTML`, the busy
state and the call trace change; in popup.js only the output region and the
call trace change. -/
theorem c8_ask_failure_frame :
    (∀ (st : PopupStateV0) (m : String), ¬(st.questionValue = "") →
      st.videoProcessed = true → st.gradioClient = true →
      handleAskQuestion st (PredictResult.err m) =
        { st with answerHTML := "An error occurred: " ++ m,
                  askDisabled := false, askLoading := false,
                  calls := st.calls ++ [Call.answerQuestion st.questionValue] }) ∧
    (∀ (st : PopupState) (m : String), ¬(jsTrimStr st.questionValue = "") →
      st.gradioClient = true →
      handleAsk st (PredictResult.err m) =
        { st with outputHTML := "<span class=\"empty\">An error occurred: " ++ m ++ "</span>",
                  outputDisplay := "block", outputVisible := true,
                  calls := st.calls ++ [Call.answerQuestion (jsTrimStr st.questionValue)] }) := by
  constructor
  · intro st m hq hv hcl
    simp [handleAskQuestion, hq, hv, hcl]
  · intro st m hq hcl
    simp [handleAsk, hq, hcl]

/-- C8 (witness): an ask failure at a processed state with a nonempty
question, in both variants. -/
theorem c8_ask_failure_frame_witness :
    handleAskQuestion
        { basePopupV0 with videoProcessed := true, questionValue := "Who speaks?" }
        (PredictResult.err "backend down") =
      { basePopupV0 with
          videoProcessed := true
          questionValue := "Who speaks?"
          answerHTML := "An error occurred: backend down"
          askDisabled := false
          askLoading := false
          calls := [Call.answerQuestion "Who speaks?"] } ∧
    handleAsk { basePopup with videoProcessed := true, questionValue := "Who speaks?" }
        (PredictResult.err "backend down") =
      { basePopup with
          videoProcessed := true
          questionValue := "Who speaks?"
          outputHTML := "<span class=\"empty\">An error occurred: backend down</span>"
          outputDisplay := "block"
          outputVisible := true
          calls := [Call.answerQuestion "Who speaks?"] } := by
  constructor
  · have h := c8_ask_failure_frame.1
      { basePopupV0 with videoProcessed := true, questionValue := "Who speaks?" }
      "backend down" (by decide) rfl rfl
    rw [h]
    decide
  · have h := c8_ask_failure_frame.2
      { basePopup with videoProcessed := true, questionValue := "Who speaks?" }
      "backend down" (by decide) rfl
    rw [h]
    decide

/-- C3 (counterexample): the claim "`videoProcessed` becomes true only after
a response whose payload carries no error field, and every failure (thrown
error or error field present) re-enables the form" fails on the code: the
guard is `if (output?.error)`, a JS truthiness test, so a payload carrying
the error field with the empty string is treated as success — the flag
becomes true and the disabled URL input and process button stay disabled. -/
theorem c3_counterexample_empty_error_field :
    ({ basePopup with processBtnDisabled := true, videoUrlDisabled := true }
        : PopupState).videoProcessed = false ∧
    (handleProcessVideo { basePopup with processBtnDisabled := true, videoUrlDisabled := true }
        true (ProcessOutcome.payload (some "") none)).videoProcessed = true ∧
    (handleProcessVideo { basePopup with processBtnDisabled := true, videoUrlDisabled := true }
        true (ProcessOutcome.payload (some "") none)).processBtnDisabled = true ∧
    (handleProcessVideo { basePopup with processBtnDisabled := true, videoUrlDisabled := true }
        true (ProcessOutcome.payload (some "") none)).videoUrlDisabled = true := by
  exact ⟨rfl, by decide, by decide, by decide⟩

/-- C3 (amended): `videoProcessed` becomes true only when the submit-video
call returns a payload whose `error` field is JS-falsy (absent or the empty
string); after every failure — a thrown error or a payload with a non-empty
`error` — the flag is false and the URL input and process button are
re-enabled; no other handler ever changes the flag.  Both variants. -/
theorem c3_amended_processed_flag :
    (∀ (st : PopupState) (c : Bool) (o : ProcessOutcome),
      ¬(st.videoUrlValue = "") → (st.gradioClient = true ∨ c = true) →
      outcomeFails o = true →
      (handleProcessVideo st c o).videoProcessed = false ∧
      (handleProcessVideo st c o).processBtnDisabled = false ∧
      (handleProcessVideo st c o).videoUrlDisabled = false) ∧
    (∀ (st : PopupState) (c : Bool) (o : ProcessOutcome),
      ¬(st.videoUrlValue = "") → (st.gradioClient = true ∨ c = true) →
      outcomeFails o = false →
      (handleProcessVideo st c o).videoProcessed = true) ∧
    (∀ (st : PopupState) (c : Bool) (o : ProcessOutcome),
      (handleProcessVideo st c o).videoProcessed = true →
      outcomeFails o = false ∨ st.videoProcessed = true) ∧
    (∀ (st : PopupState) (o : PredictResult),
      (handleAsk st o).videoProcessed = st.videoProcessed) ∧
    (∀ (st : PopupState) (c : Bool),
      (connectToGradio st c).videoProcessed = st.videoProcessed) ∧
    (∀ (st : PopupStateV0) (c : Bool) (o : ProcessOutcome),
      ¬(st.videoUrlValue = "") → (st.gradioClient = true ∨ c = true) →
      outcomeFails o = true →
      (handleProcessVideoV0 st c o).videoProcessed = false ∧
      (handleProcessVideoV0 st c o).processBtnDisabled = false ∧
      (handleProcessVideoV0 st c o).videoUrlDisabled = false) ∧
    (∀ (st : PopupStateV0) (c : Bool) (o : ProcessOutcome),
      ¬(st.videoUrlValue = "") → (st.gradioClient = true ∨ c = true) →
      outcomeFails o = false →
      (handleProcessVideoV0 st c o).videoProcessed = true) ∧
    (∀ (st : PopupStateV0) (c : Bool) (o : ProcessOutcome),
      (handleProcessVideoV0 st c o).videoProcessed = true →
      outcomeFails o = false ∨ st.videoProcessed = true) ∧
    (∀ (st : PopupStateV0) (o : PredictResult),
      (handleAskQuestion st o).videoProcessed = st.videoProcessed) ∧
    (∀ (st : PopupStateV0) (c : Bool),
      (connectToGradioV0 st c).videoProcessed = st.videoProcessed) := by
  refine ⟨?_, ?_, ?_, ?_, ?_, ?_, ?_, ?_, ?_, ?_⟩
  · intro st c o hu hcl hf
    by_cases hg : st.gradioClient = true
    · cases o with
      | thrown m => simp [handleProcessVideo, hu, hg]
      | payload e msg =>
        have he : ¬(e.getD "" = "") := by simpa [outcomeFails] using hf
        simp [handleProcessVideo, hu, hg, he]
    · have hc : c = true := by
        rcases hcl with h' | h'
        · exact absurd h' hg
        · exact h'
      subst hc
      cases o with
      | thrown m => simp [handleProcessVideo, connectToGradio, hu, hg]
      | payload e msg =>
        have he : ¬(e.getD "" = "") := by simpa [outcomeFails] using hf
        simp [handleProcessVideo, connectToGradio, hu, hg, he]
  · intro st c o hu hcl hf
    by_cases hg : st.gradioClient = true
    · cases o with
      | thrown m => simp [outcomeFails] at hf
      | payload e msg =>
        have he : e.getD "" = "" := by simpa [outcomeFails] using hf
        simp [handleProcessVideo, hu, hg, he]
    · have hc : c = true := by
        rcases hcl with h' | h'
        · exact absurd h' hg
        · exact h'
      subst hc
      cases o with
      | thrown m => simp [outcomeFails] at hf
      | payload e msg =>
        have he : e.getD "" = "" := by simpa [outcomeFails] using hf
        simp [handleProcessVideo, connectToGradio, hu, hg, he]
  · intro st c o h
    by_cases hu : st.videoUrlValue = ""
    · right
      rw [handleProcessVideo, if_pos hu] at h
      exact h
    · by_cases hg : st.gradioClient = true
      · cases o with
        | thrown m => simp [handleProcessVideo, hu, hg] at h
        | payload e msg =>
          by_cases he : e.getD "" = ""
          · left
            simp [outcomeFails, he]
          · simp [handleProcessVideo, hu, hg, he] at h
      · by_cases hc : c = true
        · subst hc
          cases o with
          | thrown m => simp [handleProcessVideo, connectToGradio, hu, hg] at h
          | payload e msg =>
            by_cases he : e.getD "" = ""
            · left
              simp [outcomeFails, he]
            · simp [handleProcessVideo, connectToGradio, hu, hg, he] at h
        · right
          have hcf : c = false := by
            cases c
            · rfl
            · exact absurd rfl hc
          subst hcf
          have hg' : st.gradioClient = false := Bool.not_eq_true _ ▸ hg
          have hres : (handleProcessVideo st false o).videoProcessed = st.videoProcessed := by
            rw [handleProcessVideo, if_neg hu]
            simp [connectToGradio, hg']
          rw [hres] at h
          exact h
  · intro st o
    by_cases hq : jsTrimStr st.questionValue = ""
    · rw [handleAsk, if_pos hq]
    · by_cases hc : st.gradioClient = true <;> cases o <;> simp [handleAsk, hq, hc]
  · intro st c
    by_cases hg : st.gradioClient = true
    · rw [connectToGradio, if_pos (by rw [hg])]
    · cases c <;> simp [connectToGradio, hg]
  · intro st c o hu hcl hf
    by_cases hg : st.gradioClient = true
    · cases o with
      | thrown m => simp [handleProcessVideoV0, hu, hg]
      | payload e msg =>
        have he : ¬(e.getD "" = "") := by simpa [outcomeFails] using hf
        simp [handleProcessVideoV0, hu, hg, he]
    · have hc : c = true := by
        rcases hcl with h' | h'
        · exact absurd h' hg
        · exact h'
      subst hc
      cases o with
      | thrown m => simp [handleProcessVideoV0, connectToGradioV0, hu, hg]
      | payload e msg =>
        have he : ¬(e.getD "" = "") := by simpa [outcomeFails] using hf
        simp [handleProcessVideoV0, connectToGradioV0, hu, hg, he]
  · intro st c o hu hcl hf
    by_cases hg : st.gradioClient = true
    · cases o with
      | thrown m => simp [outcomeFails] at hf
      | payload e msg =>
        have he : e.getD "" = "" := by simpa [outcomeFails] using hf
        simp [handleProcessVideoV0, hu, hg, he]
    · have hc : c = true := by
        rcases hcl with h' | h'
        · exact absurd h' hg
        · exact h'
      subst hc
      cases o with
      | thrown m => simp [outcomeFails] at hf
      | payload e msg =>
        have he : e.getD "" = "" := by simpa [outcomeFails] using hf
        simp [handleProcessVideoV0, connectToGradioV0, hu, hg, he]
  · intro st c o h
    by_cases hu : st.videoUrlValue = ""
    · right
      rw [handleProcessVideoV0, if_pos hu] at h
      exact h
    · by_cases hg : st.gradioClient = true
      · cases o with
        | thrown m => simp [handleProcessVideoV0, hu, hg] at h
        | payload e msg =>
          by_cases he : e.getD "" = ""
          · left
            simp [outcomeFails, he]
          · simp [handleProcessVideoV0, hu, hg, he] at h
      · by_cases hc : c = true
        · subst hc
          cases o with
          | thrown m => simp [handleProcessVideoV0, connectToGradioV0, hu, hg] at h
          | payload e msg =>
            by_cases he : e.getD "" = ""
            · left
              simp [outcomeFails, he]
            · simp [handleProcessVideoV0, connectToGradioV0, hu, hg, he] at h
        · right
          have hcf : c = false := by
            cases c
            · rfl
            · exact absurd rfl hc
          subst hcf
          have hg' : st.gradioClient = false := Bool.not_eq_true _ ▸ hg
          have hres : (handleProcessVideoV0 st false o).videoProcessed = st.videoProcessed := by
            rw [handleProcessVideoV0, if_neg hu]
            simp [connectToGradioV0, hg']
          rw [hres] at h
          exact h
  · intro st o
    by_cases hq : st.questionValue = ""
    · rw [handleAskQuestion, if_pos hq]
    · by_cases hv : st.videoProcessed = true <;> by_cases hc : st.gradioClient = true <;>
        cases o <;> simp [handleAskQuestion, hq, hv, hc]
  · intro st c
    by_cases hg : st.gradioClient = true
    · rw [connectToGradioV0, if_pos (by rw [hg])]
    · cases c <;> simp [connectToGradioV0, hg]

/-- C3 (amended, witness): a thrown processing failure re-enables the form
and leaves the flag false, and a payload with no error field sets it. -/
theorem c3_amended_processed_flag_witness :
    ((handleProcessVideo basePopup true (ProcessOutcome.thrown "fetch failed")).videoProcessed
        = false ∧
      (handleProcessVideo basePopup true
          (ProcessOutcome.thrown "fetch failed")).processBtnDisabled = false ∧
      (handleProcessVideo basePopup true
          (ProcessOutcome.thrown "fetch failed")).videoUrlDisabled = false) ∧
    (handleProcessVideo basePopup true
        (ProcessOutcome.payload none (some "Video processed successfully!"))).videoProcessed
      = true ∧
    (handleProcessVideoV0 basePopupV0 true (ProcessOutcome.thrown "fetch failed")).videoProcessed
      = false := by
  refine ⟨c3_amended_processed_flag.1 basePopup true (ProcessOutcome.thrown "fetch failed")
      (by decide) (Or.inl rfl) (by decide),
    c3_amended_processed_flag.2.1 basePopup true
      (ProcessOutcome.payload none (some "Video processed successfully!"))
      (by decide) (Or.inl rfl) (by decide),
    (c3_amended_processed_flag.2.2.2.2.2.1 basePopupV0 true
      (ProcessOutcome.thrown "fetch failed") (by decide) (Or.inl rfl) (by decide)).1⟩

/-! ## Claim theorems: overlapping streaming runs -/

/-- C4 (counterexample): the claim "with two overlapping ask invocations the
output region always ends with the newest answer" fails on the code:
`streamText` has no cancellation or supersession check, so the schedule
`demoMergeStale` — a valid interleaving of the two runs' write sequences in
which the first run starts first and the second run completes while the
first run's timer callbacks are still pending — ends with the superseded
first answer as the final content. -/
theorem c4_counterexample_stale_final_write :
    Interleave (taggedAskWrites false demoAnsFirst) (taggedAskWrites true demoAnsSecond)
      demoMergeStale ∧
    (demoMergeStale.map Prod.fst).head? = some false ∧
    hasTrueThenFalse (demoMergeStale.map Prod.fst) = true ∧
    (demoMergeStale.map Prod.snd).getLast? = some (formatResponseL demoAnsFirst) ∧
    formatResponseL demoAnsFirst ≠ formatResponseL demoAnsSecond := by
  refine ⟨?_, by decide, by decide, by decide, by decide⟩
  exact interleave_head_block (false, loadingAnswerHTML)
    ((taggedAskWrites false demoAnsFirst).drop 1) (taggedAskWrites true demoAnsSecond)

/-- C4 (amended): the two overlapping runs' writes interleave without any
supersession mechanism, and the final content is simply the last write of
whichever schedule occurs: for any two answers with distinct formatted
texts there is a valid overlapping interleaving — first run starts first,
and keeps writing after the second has started — whose final output is the
superseded first answer, not the newest one. -/
theorem c4_amended_no_supersession :
    ∀ a1 a2 : List Char, formatResponseL a1 ≠ formatResponseL a2 →
      ∃ m : List (Bool × List Char),
        Interleave (taggedAskWrites false a1) (taggedAskWrites true a2) m ∧
        (m.map Prod.fst).head? = some false ∧
        hasTrueThenFalse (m.map Prod.fst) = true ∧
        (m.map Prod.snd).getLast? = some (formatResponseL a1) ∧
        ¬((m.map Prod.snd).getLast? = some (formatResponseL a2)) := by
  intro a1 a2 hne
  refine ⟨(false, loadingAnswerHTML) ::
    (taggedAskWrites true a2 ++ (taggedAskWrites false a1).drop 1), ?_, rfl, ?_, ?_, ?_⟩
  · exact interleave_head_block (false, loadingAnswerHTML)
      ((taggedAskWrites false a1).drop 1) (taggedAskWrites true a2)
  · -- overlap: a true-tagged write is followed by false-tagged ones
    have hdrop : (taggedAskWrites false a1).drop 1
        = (streamWrites (formatResponseL a1)).map (fun w => (false, w)) := rfl
    have hmap : ((false, loadingAnswerHTML) ::
          (taggedAskWrites true a2 ++ (taggedAskWrites false a1).drop 1)).map Prod.fst
        = false :: (true :: ((streamWrites (formatResponseL a2)).map (fun _ => true)
            ++ (streamWrites (formatResponseL a1)).map (fun _ => false))) := by
      rw [List.map_cons, List.map_append, hdrop, taggedAskWrites_cons,
        List.map_cons, List.map_map, List.map_map]
      rfl
    rw [hmap]
    have hT1 : ((streamWrites (formatResponseL a1)).map
        (fun _ => (false : Bool))).any (fun x => !x) = true := by
      rw [streamWrites, List.map_append, List.any_append]
      simp
    have hne2 : streamWrites (formatResponseL a1) ≠ [] := by
      rw [streamWrites]
      simp
    simp [hasTrueThenFalse, List.any_append, hT1, hne2]
  · -- the final write is the first run's formatted answer
    have hmap : ((false, loadingAnswerHTML) ::
          (taggedAskWrites true a2 ++ (taggedAskWrites false a1).drop 1)).map Prod.snd
        = loadingAnswerHTML :: (askRunWrites a2 ++ streamWrites (formatResponseL a1)) := by
      rw [List.map_cons, List.map_append]
      have h1 : (taggedAskWrites true a2).map Prod.snd = askRunWrites a2 :=
        map_snd_tagged true (askRunWrites a2)
      have h2 : ((taggedAskWrites false a1).drop 1).map Prod.snd
          = streamWrites (formatResponseL a1) :=
        map_snd_tagged false (streamWrites (formatResponseL a1))
      rw [h1, h2]
    rw [hmap]
    have hne1 : askRunWrites a2 ++ streamWrites (formatResponseL a1) ≠ [] := by
      simp [askRunWrites]
    have hne2 : streamWrites (formatResponseL a1) ≠ [] := by
      rw [streamWrites]
      simp
    rw [show loadingAnswerHTML :: (askRunWrites a2 ++ streamWrites (formatResponseL a1))
        = [loadingAnswerHTML] ++ (askRunWrites a2 ++ streamWrites (formatResponseL a1)) from rfl,
      getLast?_of_suffix hne1, getLast?_of_suffix hne2, streamWrites_getLast]
  · -- and therefore not the second run's answer
    intro hcon
    have hmap : ((false, loadingAnswerHTML) ::
          (taggedAskWrites true a2 ++ (taggedAskWrites false a1).drop 1)).map Prod.snd
        = loadingAnswerHTML :: (askRunWrites a2 ++ streamWrites (formatResponseL a1)) := by
      rw [List.map_cons, List.map_append]
      have h1 : (taggedAskWrites true a2).map Prod.snd = askRunWrites a2 :=
        map_snd_tagged true (askRunWrites a2)
      have h2 : ((taggedAskWrites false a1).drop 1).map Prod.snd
          = streamWrites (formatResponseL a1) :=
        map_snd_tagged false (streamWrites (formatResponseL a1))
      rw [h1, h2]
    rw [hmap] at hcon
    have hne1 : askRunWrites a2 ++ streamWrites (formatResponseL a1) ≠ [] := by
      simp [askRunWrites]
    have hne2 : streamWrites (formatResponseL a1) ≠ [] := by
      rw [streamWrites]
      simp
    rw [show loadingAnswerHTML :: (askRunWrites a2 ++ streamWrites (formatResponseL a1))
        = [loadingAnswerHTML] ++ (askRunWrites a2 ++ streamWrites (formatResponseL a1)) from rfl,
      getLast?_of_suffix hne1, getLast?_of_suffix hne2, streamWrites_getLast] at hcon
    exact hne (Option.some.injEq .. |>.mp hcon)

/-- C4 (amended, witness): the stale-wins interleaving at the two demo
answers whose formatted texts differ. -/
theorem c4_amended_no_supersession_witness :
    ∃ m : List (Bool × List Char),
      Interleave (taggedAskWrites false demoAnsFirst) (taggedAskWrites true demoAnsSecond) m ∧
      (m.map Prod.fst).head? = some false ∧
      hasTrueThenFalse (m.map Prod.fst) = true ∧
      (m.map Prod.snd).getLast? = some (formatResponseL demoAnsFirst) ∧
      ¬((m.map Prod.snd).getLast? = some (formatResponseL demoAnsSecond)) :=
  c4_amended_no_supersession demoAnsFirst demoAnsSecond (by decide)

/-- C7 (witness): the two-span statement instantiated at
`"x **a** y **b** z"` (prefix `"x "`, groups `"a"`, `"b"`, middle `" y "`,
suffix `" z"`). -/
theorem c7_bold_spans_witness :
    boldReplace ("x ".data ++ ['*', '*'] ++ "a".data ++ ['*', '*'] ++ " y ".data
        ++ ['*', '*'] ++ "b".data ++ ['*', '*'] ++ " z".data)
      = "x ".data ++ strongO ++ "a".data ++ strongC ++ " y ".data
        ++ strongO ++ "b".data ++ strongC ++ " z".data :=
  c7_bold_spans.1 "x ".data "a".data " y ".data "b".data " z".data
    (by decide) (by decide) (by decide) (by decide) (by decide)
